import Mathlib

/-!
MERN-Stack-development: the authentication demos, the interview katas and the todo list.

A shallow embedding of

* `PACKAGE_Express/Auth-Cookies-Session/Auth_Session.js` (cookie-session login),
* `PACKAGE_Express/jwt-auth-demo/app.js` (JWT login),
* `Interview Prep/bracketValidate.js`, `intersectArray.js`, `memoization.js`,
  `polyfill_map.js`, `chunk.js`, and
* `viteReact01/src/Todo.jsx` (`markTodo`),

with all definitions first and the properties after them.

Conventions of the embedding.  A request handler is a function from the state it can
touch to the new state together with the list of effects it performed, in program
order (`res.redirect`, `res.send`, `res.render`, `next()`, `console.log`, a database
insert).  `await` is sequential: one request is processed from start to end before the
next one.  Request-body fields are strings.  A JavaScript array without holes is a list
(for the `map` polyfill, whose callback may change the array, the list of its slots), and
a loop over its indices is a recursion on what is left to read.
-/

namespace AuthSession

/-! ## Data -/

/-- Modelled from the spec: the mongoose model `./models/user.model` required on line 7
of `Auth_Session.js` is not among the sources.  The spec's User Record is
`id, username, email, passwordHash`; the handlers read and write the credential field
under the name `password`. -/
structure UserRecord where
  id : Nat
  username : String
  email : String
  password : String
deriving DecidableEq, Repr

/-- Modelled from the spec: `userModel.findOne` of the missing `./models/user.model`
(spec: `findByUsername(username) -> UserRecord | None`, a pure lookup).  The collection
is the list of its documents in insertion order and the lookup returns the first
document whose `username` equals the argument. -/
def findOne (users : List UserRecord) (username : String) : Option UserRecord :=
  users.find? (fun u => u.username == username)

/-- Modelled from the spec: `userModel.create` of the missing `./models/user.model`:
the new document gets the identifier supplied by the database and is added to the
collection. -/
def create (users : List UserRecord) (freshId : Nat) (username email password : String) :
    List UserRecord :=
  users ++ [{ id := freshId, username := username, email := email, password := password }]

/-- The data the handlers keep on `req.session`: only the property `user` is used. -/
structure Session where
  user : Option UserRecord
deriving DecidableEq, Repr

/-- The parsed request body (`express.json()` / `express.urlencoded`). -/
structure Body where
  username : String
  email : String
  password : String
deriving DecidableEq, Repr

/-- The observable actions of a handler. -/
inductive Effect where
  | consoleLog (s : Session)
  | redirect (url : String)
  | send (body : String)
  | render (view : String)
  | dbCreate (username email password : String)
  | next
deriving DecidableEq, Repr

/-- Everything a handler can read or write while one request is processed. -/
structure Ctx where
  /-- the documents of `userModel` -/
  users : List UserRecord
  /-- `app.locals.user` -/
  localsUser : Option UserRecord
  /-- `req.session` -/
  session : Session
  /-- whether `req.session.destroy()` has been called -/
  destroyed : Bool
  /-- the identifier the database gives to a document created by this request -/
  freshId : Nat
deriving DecidableEq, Repr

abbrev Handler := Ctx → Ctx × List Effect

/-! ## Middleware and routes of `Auth_Session.js` -/

/-- Lines 27-34. -/
def isLoggedIn : Handler := fun c =>
  if c.session.user.isNone then
    (c, [Effect.consoleLog c.session, Effect.redirect "/login"])
  else
    (c, [Effect.consoleLog c.session, Effect.next])

/-- Lines 36-39: `if (req.session.user) app.locals.user = req.session.user; next();`. -/
def localsMiddleware : Handler := fun c =>
  ((if c.session.user.isSome then { c with localsUser := c.session.user } else c),
    [Effect.next])

/-- Line 47, the final handler of `GET /`. -/
def getRoot : Handler := fun c => (c, [Effect.render "index"])

/-- Lines 49-55. -/
def getLogin : Handler := fun c =>
  if c.session.user.isSome then (c, [Effect.redirect "back"])
  else (c, [Effect.render "login"])

/-- Lines 57-63. -/
def getRegister : Handler := fun c =>
  if c.session.user.isSome then (c, [Effect.redirect "back"])
  else (c, [Effect.render "register"])

/-- Lines 65-74. -/
def postRegister (body : Body) : Handler := fun c =>
  match findOne c.users body.username with
  | some _ => (c, [Effect.send "User already exists"])
  | none =>
    ({ c with users := create c.users c.freshId body.username body.email body.password },
      [Effect.dbCreate body.username body.email body.password, Effect.redirect "/login"])

/-- Lines 76-90. -/
def postLogin (body : Body) : Handler := fun c =>
  match findOne c.users body.username with
  | none => (c, [Effect.redirect "/register"])
  | some user =>
    if user.password != body.password then
      (c, [Effect.send "Invalid Creds!"])
    else
      ({ c with session := { user := some user } }, [Effect.redirect "/"])

/-- Lines 92-96. -/
def getLogout : Handler := fun c =>
  ({ c with destroyed := true }, [Effect.redirect "/login"])

/-- Express dispatch: the next handler of the stack runs when the current one has called
`next()`. -/
def runChain : List Handler → Ctx → Ctx × List Effect
  | [], c => (c, [])
  | h :: rest, c =>
    let r := h c
    if Effect.next ∈ r.2 then
      let r2 := runChain rest r.1
      (r2.1, r.2 ++ r2.2)
    else r

inductive Route where
  | getRoot | getLogin | getRegister | postRegister | postLogin | getLogout
deriving DecidableEq, Repr

/-- The handlers registered for each route, in registration order. -/
def routeHandlers (body : Body) : Route → List Handler
  | Route.getRoot => [isLoggedIn, getRoot]
  | Route.getLogin => [getLogin]
  | Route.getRegister => [getRegister]
  | Route.postRegister => [postRegister body]
  | Route.postLogin => [postLogin body]
  | Route.getLogout => [getLogout]

/-- The state of the application between requests: the user collection and
`app.locals.user`. -/
structure AppState where
  users : List UserRecord
  localsUser : Option UserRecord
deriving DecidableEq, Repr

/-- The `express-session` middleware of lines 14-21: the session stored for the request's
cookie is loaded, and a request without a stored session gets a new, empty one. -/
def sessionMiddleware (stored : Option Session) : Session :=
  stored.getD { user := none }

/-- What the result of a request is: the new application state, the session stored for
the client afterwards (`none` once it was destroyed), and the effects in order. -/
structure Outcome where
  state : AppState
  stored : Option Session
  effects : List Effect
deriving DecidableEq, Repr

/-- One request through the whole stack: session middleware, the `app.locals`
middleware of lines 36-39, then the route; at the end the session is written back unless
it was destroyed. -/
def handleRequest (route : Route) (body : Body) (freshId : Nat) (st : AppState)
    (stored : Option Session) : Outcome :=
  let c0 : Ctx :=
    { users := st.users, localsUser := st.localsUser,
      session := sessionMiddleware stored, destroyed := false, freshId := freshId }
  let r := runChain (localsMiddleware :: routeHandlers body route) c0
  { state := { users := r.1.users, localsUser := r.1.localsUser },
    stored := if r.1.destroyed then none else some r.1.session,
    effects := r.2 }

/-- The part of the effects that forms the HTTP response. -/
def response (es : List Effect) : List Effect :=
  es.filter (fun e =>
    match e with
    | Effect.redirect _ => true
    | Effect.send _ => true
    | Effect.render _ => true
    | _ => false)

/-- How many times `next()` was called. -/
def nextCalls (es : List Effect) : Nat := es.count Effect.next

/-- The data-model invariant of the user collection: one record per username. -/
def UniqueUsernames (users : List UserRecord) : Prop :=
  (users.map (fun u => u.username)).Nodup

instance (users : List UserRecord) : Decidable (UniqueUsernames users) := by
  unfold UniqueUsernames; infer_instance

/-! ## Sample data -/

def alice : UserRecord :=
  { id := 1, username := "alice", email := "a@x.com", password := "pw123" }

def aliceBody : Body := { username := "alice", email := "a@x.com", password := "pw123" }

def bobBody : Body := { username := "bob", email := "b@x.com", password := "hunter2" }

def aliceWrongBody : Body := { username := "alice", email := "a@x.com", password := "wrong" }

def oneUser : AppState := { users := [alice], localsUser := none }

def noUsers : AppState := { users := [], localsUser := none }

def aliceSession : Session := { user := some alice }

/-- A second record under the username of `alice`, with another password. -/
def aliceOther : UserRecord :=
  { id := 2, username := "alice", email := "a2@x.com", password := "other" }

def aliceOtherBody : Body := { username := "alice", email := "a2@x.com", password := "other" }

def twoAlices : AppState := { users := [alice, aliceOther], localsUser := none }

end AuthSession

namespace JwtAuthDemo

/-! ## `jwt-auth-demo/app.js` -/

/-- An element of the in-memory array `users` (line 11): the username and the bcrypt
hash pushed on line 21. -/
structure User where
  username : String
  password : String
deriving DecidableEq, Repr

/-- The library `bcryptjs`, a parameter of the embedding.  `hash plain rounds salt` is
`bcrypt.hash(plain, rounds)` when the library draws the random salt `salt`;
`compare plain stored` is `bcrypt.compare(plain, stored)`. -/
structure Bcrypt where
  hash : String → Nat → Nat → String
  compare : String → String → Bool

/-- The decoded payload of a token. -/
structure Payload where
  username : String
  iat : Nat
  exp : Nat
deriving DecidableEq, Repr

/-- The library `jsonwebtoken` with the configured `process.env.JWT_SECRET`, a parameter
of the embedding.  `sign username now` is the token `jwt.sign` returns for the payload with this username
at time `now`; `verify token now` is `some payload` when `jwt.verify` returns the payload of
the non-empty string `token` and `none` when it throws. -/
structure Jwt where
  sign : String → Nat → String
  verify : String → Nat → Option Payload

/-- What a request sees of the outside world: the salt drawn by `bcrypt.hash` and the
clock. -/
structure Env where
  salt : Nat
  now : Nat
deriving DecidableEq, Repr

/-- The request body. -/
structure Body where
  username : String
  password : String
deriving DecidableEq, Repr

/-- A JSON response: `res.status(..).json(..)`; the status is 200 when `res.status` is
not called. -/
structure JsonResponse where
  status : Nat
  message : String
  token : Option String
  user : Option Payload
deriving DecidableEq, Repr

/-- How a handler ends: it sends a response, or an exception leaves it. -/
inductive Result where
  | responded (r : JsonResponse)
  | threw (msg : String)
deriving DecidableEq, Repr

/-- Lines 14-29: the new list of users and the response. -/
def register (bc : Bcrypt) (jwt : Jwt) (env : Env) (body : Body) (users : List User) :
    List User × JsonResponse :=
  let hashedPassword := bc.hash body.password 10 env.salt
  let users1 := users ++ [{ username := body.username, password := hashedPassword }]
  let token := jwt.sign body.username env.now
  (users1, { status := 200, message := "User registered", token := some token, user := none })

/-- Lines 32-55. -/
def login (bc : Bcrypt) (jwt : Jwt) (env : Env) (body : Body) (users : List User) :
    JsonResponse :=
  match users.find? (fun u => u.username == body.username) with
  | none =>
    { status := 400, message := "Invalid username or password", token := none, user := none }
  | some user =>
    if !(bc.compare body.password user.password) then
      { status := 400, message := "Invalid username or password", token := none,
        user := none }
    else
      { status := 200, message := "Logged in", token := some (jwt.sign body.username env.now),
        user := none }

/-- The pieces of a character list between single spaces, as `String.prototype.split(" ")`
cuts them: every space ends a piece, so two spaces in a row give an empty piece. -/
def splitSpaces : List Char → List (List Char)
  | [] => [[]]
  | c :: cs =>
    if c = ' ' then [] :: splitSpaces cs
    else
      match splitSpaces cs with
      | [] => [[c]]
      | p :: ps => (c :: p) :: ps

/-- The expression `token.split(" ")[1]` of line 67; `none` is `undefined`. -/
def secondPart (token : String) : Option String :=
  ((splitSpaces token.data).map String.mk)[1]?

/-- The call `jwt.verify(x, secret)` on a possibly undefined argument: the library throws
`jwt must be provided` for `undefined` and for the empty string before it looks at the
token. -/
def jwtVerify (jwt : Jwt) (now : Nat) : Option String → Except String Payload
  | none => Except.error "jwt must be provided"
  | some s =>
    if s = "" then Except.error "jwt must be provided"
    else
      match jwt.verify s now with
      | some p => Except.ok p
      | none => Except.error "invalid token"

/-- The `try` block of lines 66-68: an exception thrown by `jwt.verify` leaves it. -/
def protectedTry (jwt : Jwt) (now : Nat) (token : String) : Except String JsonResponse :=
  match jwtVerify jwt now (secondPart token) with
  | Except.ok decoded =>
    Except.ok { status := 200, message := "This is protected data", token := none,
                user := some decoded }
  | Except.error e => Except.error e

/-- Lines 58-72; `authorization` is `req.headers["authorization"]`, `none` when the
header is absent. -/
def protectedRoute (jwt : Jwt) (env : Env) (authorization : Option String) : Result :=
  match authorization with
  | none =>
    Result.responded { status := 403, message := "Token required", token := none, user := none }
  | some token =>
    if token = "" then
      Result.responded { status := 403, message := "Token required", token := none,
                         user := none }
    else
      match protectedTry jwt env.now token with
      | Except.ok r => Result.responded r
      | Except.error _ =>
        Result.responded { status := 401, message := "Invalid or expired token",
                           token := none, user := none }

/-! ## Sample data -/

/-- A toy stand-in for `bcryptjs`: the hash is the salt written as a run of `s`, then
`$`, then the password; `compare` checks what follows the first `$`. -/
def sampleBcrypt : Bcrypt where
  hash := fun plain _ salt => String.mk (List.replicate salt 's' ++ '$' :: plain.data)
  compare := fun plain stored =>
    stored.data.dropWhile (fun ch => ch != '$') == '$' :: plain.data

/-- A toy stand-in for `jsonwebtoken`: the token of a username is `tok:` followed by the
username, valid for an hour. -/
def sampleJwt : Jwt where
  sign := fun username _ => String.mk ('t' :: 'o' :: 'k' :: ':' :: username.data)
  verify := fun token now =>
    match token.data with
    | 't' :: 'o' :: 'k' :: ':' :: rest =>
      some { username := String.mk rest, iat := now, exp := now + 3600 }
    | _ => none

def sampleEnv : Env := { salt := 3, now := 1000 }

def aliceBody : Body := { username := "alice", password := "pw123" }

def aliceWrongBody : Body := { username := "alice", password := "wrong" }

def bobBody : Body := { username := "bob", password := "hunter2" }

end JwtAuthDemo


namespace InterviewPrep

/-! ## `Interview Prep/bracketValidate.js` -/

/-- The object `bracketMap` of lines 3-7, read at a one-character key: the closing
bracket of an opening bracket, `none` (`undefined`) for every other character. -/
def bracketMap (char : Char) : Option Char :=
  if char = '(' then some ')'
  else if char = '{' then some '}'
  else if char = '[' then some ']'
  else none

/-- The call `stack.pop()` on a stack kept with its top first: the removed element
(`none` is `undefined`, for an empty stack) and the stack that is left. -/
def pop : List Char → Option Char × List Char
  | [] => (none, [])
  | top :: below => (some top, below)

/-- The `for` loop of lines 9-20 followed by the `return` of line 23; the first argument
is `stack` with its top first, the second the characters still to read.  Reading
`bracketMap` at `undefined` gives `undefined`. -/
def isValidBracketsLoop : List Char → List Char → Bool
  | stack, [] => stack.length == 0
  | stack, char :: rest =>
    if (bracketMap char).isSome then
      isValidBracketsLoop (char :: stack) rest
    else
      let popped := pop stack
      if popped.1.bind bracketMap != some char then false
      else isValidBracketsLoop popped.2 rest

/-- Lines 1-24. -/
def isValidBrackets (s : String) : Bool := isValidBracketsLoop [] s.data

/-- Balanced bracket strings, as the claim words them: the empty string, a balanced
string enclosed in an opening bracket and the closing bracket of the same kind, and two
balanced strings one after the other. -/
inductive Balanced : List Char → Prop
  | nil : Balanced []
  | wrap (o c : Char) (s : List Char) :
      bracketMap o = some c → Balanced s → Balanced (o :: s ++ [c])
  | append (s t : List Char) : Balanced s → Balanced t → Balanced (s ++ t)

/-- What may still follow when the opening brackets `stack` (top first) are unmatched: a
balanced string and the closing bracket of the top, then the same for the rest of the
stack, then a balanced string. -/
inductive Closes : List Char → List Char → Prop
  | done (s : List Char) : Balanced s → Closes [] s
  | close (o c : Char) (stack s t : List Char) :
      bracketMap o = some c → Balanced s → Closes stack t → Closes (o :: stack) (s ++ c :: t)

/-! ## `Interview Prep/intersectArray.js` -/

/-- The `while` loop of lines 5-15 with the `return` of line 17.  Numbers are compared
with `===` and `<` only and are taken from a linear order. -/
def intersectLoop {α : Type} [LinearOrder α] (arr1 arr2 : List α) (i j : Nat)
    (result : List α) : List α :=
  if h : i < arr1.length ∧ j < arr2.length then
    if arr1.get ⟨i, h.1⟩ = arr2.get ⟨j, h.2⟩ then
      intersectLoop arr1 arr2 (i + 1) (j + 1) (result ++ [arr1.get ⟨i, h.1⟩])
    else if arr1.get ⟨i, h.1⟩ < arr2.get ⟨j, h.2⟩ then
      intersectLoop arr1 arr2 (i + 1) j result
    else
      intersectLoop arr1 arr2 i (j + 1) result
  else result
termination_by (arr1.length - i) + (arr2.length - j)
decreasing_by all_goals (simp_wf; omega)

/-- Lines 1-18. -/
def intersect {α : Type} [LinearOrder α] (arr1 arr2 : List α) : List α :=
  intersectLoop arr1 arr2 0 0 []

/-- What the loop adds to `result` from the unread parts `arr1.slice(i)` and
`arr2.slice(j)`; used to reason about `intersectLoop`. -/
def intersectRest {α : Type} [LinearOrder α] : List α → List α → List α
  | [], _ => []
  | _ :: _, [] => []
  | a :: as, b :: bs =>
    if a = b then a :: intersectRest as bs
    else if a < b then intersectRest as (b :: bs)
    else intersectRest (a :: as) bs
termination_by l1 l2 => l1.length + l2.length

/-! ## `Interview Prep/memoization.js` -/

/-- The calls `cache.has(key)` and `cache.get(key)` on a `Map` kept as the list of its
entries in insertion order: `none` when the key is absent. -/
def mapGet {V : Type} (cache : List (String × V)) (key : String) : Option V :=
  (cache.find? (fun p => p.1 == key)).map (fun p => p.2)

/-- The call `cache.set(key, value)`: the value of an existing key is replaced in place,
a new key is added at the end. -/
def mapSet {V : Type} (cache : List (String × V)) (key : String) (value : V) :
    List (String × V) :=
  if (mapGet cache key).isSome then
    cache.map (fun p => if p.1 == key then (key, value) else p)
  else cache ++ [(key, value)]

/-- The state behind one memoized function: its `cache`, the state `world` that `fn` may
read and change, and the record `fnCalls` of the argument lists `fn` was called with. -/
structure MemoState (Args σ V : Type) where
  cache : List (String × V)
  world : σ
  fnCalls : List Args

/-- Line 3: `memoize(fn)` starts with an empty cache. -/
def memoize {Args σ V : Type} (world : σ) : MemoState Args σ V :=
  { cache := [], world := world, fnCalls := [] }

/-- Lines 5-15, one call of the function `memoize(fn)` returns.  `stringify` is
`JSON.stringify` on argument lists; `fn` is any function, its effect on the rest of the
program threaded through `world`. -/
def memoized {Args σ V : Type} (stringify : Args → String) (fn : Args → σ → V × σ)
    (args : Args) (s : MemoState Args σ V) : V × MemoState Args σ V :=
  let key := stringify args
  match mapGet s.cache key with
  | some cached => (cached, s)
  | none =>
    let r := fn args s.world
    (r.1, { cache := mapSet s.cache key r.1, world := r.2, fnCalls := s.fnCalls ++ [args] })

/-- A sequence of calls of the memoized function: the values returned, in order, and the
final state. -/
def runCalls {Args σ V : Type} (stringify : Args → String) (fn : Args → σ → V × σ) :
    List Args → MemoState Args σ V → List V × MemoState Args σ V
  | [], s => ([], s)
  | args :: rest, s =>
    let r := memoized stringify fn args s
    let rs := runCalls stringify fn rest r.2
    (r.1 :: rs.1, rs.2)

/-- Lines 19-22 on natural numbers. -/
def fibonacci : Nat → Nat
  | 0 => 0
  | 1 => 1
  | n + 2 => fibonacci (n + 1) + fibonacci n

/-- A toy stand-in for `JSON.stringify` on a one-number argument list: the number in
unary between brackets. -/
def sampleStringify (n : Nat) : String :=
  String.mk ('[' :: List.replicate n '1' ++ [']'])

/-- The function `fibonacci` as an argument of `memoize`; the world counts its calls. -/
def fibonacciFn (n : Nat) (calls : Nat) : Nat × Nat := (fibonacci n, calls + 1)

/-! ## `Interview Prep/polyfill_map.js` -/

/-- The `TypeError` of lines 8-10.  The check of line 4 is not modelled: the file is not
in strict mode, so a call with a `null` or `undefined` receiver runs with the global
object as `this` and `this == null` is never true. -/
inductive MapError where
  | notAFunction
deriving DecidableEq, Repr

/-- What a call of the callback leaves behind: the value it returns, the array `O` as the
call left it (the callback is handed `O` itself and may change it), and the state of the
rest of the program. -/
structure CallbackResult (α β σ : Type) where
  value : β
  array : List (Option α)
  world : σ

/-- The `for` loop of lines 16-20, with the number of iterations left as first argument
(`len` is read once, on line 12).  An array is the list of its slots, `none` for an empty
slot, so `i in O` holds when `i` is below the length and the slot is not empty; `O` is
read anew at every iteration.  `result` starts as `len` empty slots.  The loop returns
`result` together with `O` and the state of the program as the callbacks left them.
`thisArg` is only handed on to the callback and is not modelled. -/
def mapLoop {α β σ : Type}
    (callback : α → Nat → List (Option α) → σ → CallbackResult α β σ) :
    Nat → Nat → List (Option α) → List (Option β) → σ →
      List (Option β) × List (Option α) × σ
  | 0, _, O, result, world => (result, O, world)
  | n + 1, i, O, result, world =>
    match O[i]? with
    | some (some x) =>
      let r := callback x i O world
      mapLoop callback n (i + 1) r.array (result.set i (some r.value)) r.world
    | _ => mapLoop callback n (i + 1) O result world

/-- Lines 3-23 called on an array `this`; `callback` is `none` when it is not a function.
The result is the new array, the array `this` as it is after the call, and the state of
the program. -/
def polyfillMap {α β σ : Type} (this : List (Option α))
    (callback : Option (α → Nat → List (Option α) → σ → CallbackResult α β σ)) (world : σ) :
    Except MapError (List (Option β) × List (Option α) × σ) :=
  match callback with
  | none => Except.error MapError.notAFunction
  | some cb =>
    let len := this.length
    let result : List (Option β) := List.replicate len none
    Except.ok (mapLoop cb len 0 this result world)

/-- The claim's description of the result: the elements are visited from the first to
the last, each with its index and the whole array `O`, and the values are collected in
that order. -/
def visitFrom {α β σ : Type}
    (callback : α → Nat → List (Option α) → σ → CallbackResult α β σ) (O : List (Option α)) :
    List α → Nat → σ → List β × σ
  | [], _, world => ([], world)
  | x :: rest, i, world =>
    let r := callback x i O world
    let rs := visitFrom callback O rest (i + 1) r.world
    (r.value :: rs.1, rs.2)

/-- The callback that calls `O.pop()` and returns `x`: it removes the last element of the
array and returns its argument. -/
def popCallback (x : Int) (_i : Nat) (O : List (Option Int)) (world : Unit) :
    CallbackResult Int Int Unit :=
  { value := x, array := O.dropLast, world := world }

/-! ## `Interview Prep/chunk.js` -/

/-- The `for` loop of lines 4-10: the elements `arr[i], arr[i+1], ...` still to read, the
index `i`, `result` and `miniAns`. -/
def chunkLoop {α : Type} (arr : List α) (size : Nat) :
    List α → Nat → List (List α) → List α → List (List α)
  | [], _, result, _ => result
  | x :: rest, i, result, miniAns =>
    let miniAns1 := miniAns ++ [x]
    if miniAns1.length = size ∨ i = arr.length - 1 then
      chunkLoop arr size rest (i + 1) (result ++ [miniAns1]) []
    else
      chunkLoop arr size rest (i + 1) result miniAns1

/-- Lines 1-13 (the `console.log` of line 11 left out). -/
def chunk {α : Type} (arr : List α) (size : Nat) : List (List α) :=
  chunkLoop arr size arr 0 [] []

/-- The claim's description of the pieces: every piece but the last has `size` elements
and the last has between 1 and `size`. -/
def PiecesOk {α : Type} (size : Nat) : List (List α) → Prop
  | [] => True
  | [p] => 1 ≤ p.length ∧ p.length ≤ size
  | p :: q :: ps => p.length = size ∧ PiecesOk size (q :: ps)

end InterviewPrep

namespace ViteReact

/-! ## `viteReact01/src/Todo.jsx` -/

/-- An element of the state `todos` (lines 9-15 and 55-59). -/
structure Todo where
  id : String
  text : String
  completed : Bool
deriving DecidableEq, Repr

/-- Lines 31-37: the list handed to `setTodos`. -/
def markTodo (todos : List Todo) (todoId : String) : List Todo :=
  todos.map (fun todo =>
    if todo.id == todoId then { todo with completed := !todo.completed } else todo)

end ViteReact

/-! # Properties -/

namespace AuthSession

/-! ## Lookup lemmas -/

theorem findOne_isSome_of_mem {users : List UserRecord} {r : UserRecord} {u : String}
    (hr : r ∈ users) (hu : r.username = u) : ∃ r1, findOne users u = some r1 := by
  have h : (findOne users u).isSome = true := by
    unfold findOne
    rw [List.find?_isSome]
    exact ⟨r, hr, by simp [hu]⟩
  exact Option.isSome_iff_exists.mp h

theorem findOne_eq_none_iff {users : List UserRecord} {u : String} :
    findOne users u = none ↔ ∀ r ∈ users, r.username ≠ u := by
  unfold findOne
  simp [List.find?_eq_none]

theorem findOne_some_username {users : List UserRecord} {u : String} {r : UserRecord}
    (h : findOne users u = some r) : r.username = u ∧ r ∈ users := by
  unfold findOne at h
  have h1 := List.find?_some h
  have h2 := List.mem_of_find?_eq_some h
  exact ⟨by simpa using h1, h2⟩

theorem findOne_eq_of_mem_unique {users : List UserRecord} {r : UserRecord}
    (huniq : UniqueUsernames users) (hr : r ∈ users) :
    findOne users r.username = some r := by
  induction users with
  | nil => cases hr
  | cons x xs ih =>
    unfold UniqueUsernames at huniq
    simp only [List.map_cons, List.nodup_cons, List.mem_map, not_exists, not_and] at huniq
    rcases List.mem_cons.mp hr with h | h
    · subst h
      simp [findOne]
    · have hne : x.username ≠ r.username := fun e => huniq.1 r h e.symm
      have : findOne (x :: xs) r.username = findOne xs r.username := by
        simp [findOne, List.find?_cons, hne]
      rw [this]
      exact ih huniq.2 h


/-! ## The session demo, one request at a time -/

/-- The `app.locals` middleware always hands over to the route and touches neither the
collection nor the session. -/
theorem localsMiddleware_frame (c : Ctx) :
    (localsMiddleware c).2 = [Effect.next] ∧ (localsMiddleware c).1.users = c.users ∧
      (localsMiddleware c).1.session = c.session ∧
      (localsMiddleware c).1.destroyed = c.destroyed ∧
      (localsMiddleware c).1.freshId = c.freshId := by
  unfold localsMiddleware
  split <;> simp

/-- A request to a route with a single handler `h`: the effects are the `next()` of the
`app.locals` middleware followed by the effects of `h`. -/
theorem runChain_single (h : Handler) (c : Ctx) :
    runChain [localsMiddleware, h] c =
      ((h (localsMiddleware c).1).1, Effect.next :: (h (localsMiddleware c).1).2) := by
  simp only [runChain, (localsMiddleware_frame c).1, List.mem_singleton, if_true]
  split <;> simp

/-- The whole of `POST /register` for a username the collection already has. -/
theorem postRegister_duplicate (st : AppState) (stored : Option Session)
    (body : Body) (freshId : Nat) (r : UserRecord) (hr : r ∈ st.users)
    (hu : r.username = body.username) :
    (handleRequest Route.postRegister body freshId st stored).effects
        = [Effect.next, Effect.send "User already exists"] ∧
      (handleRequest Route.postRegister body freshId st stored).state.users = st.users := by
  obtain ⟨r1, h1⟩ := findOne_isSome_of_mem hr hu
  have hfr := localsMiddleware_frame
    { users := st.users, localsUser := st.localsUser, session := sessionMiddleware stored,
      destroyed := false, freshId := freshId }
  simp only [handleRequest, routeHandlers, runChain_single, postRegister, hfr.2.1, h1]
  simp [hfr.2.1]

/-- C1: in `POST /register`, when the collection already holds a record with the
submitted username, the handler answers "User already exists", performs no create, and
the collection (with the existing record in it) is unchanged. -/
theorem register_duplicate_rejected (st : AppState) (stored : Option Session) (body : Body)
    (freshId : Nat) (r : UserRecord) (hr : r ∈ st.users) (hu : r.username = body.username) :
    response (handleRequest Route.postRegister body freshId st stored).effects
        = [Effect.send "User already exists"] ∧
      (∀ a b c, Effect.dbCreate a b c ∉
        (handleRequest Route.postRegister body freshId st stored).effects) ∧
      (handleRequest Route.postRegister body freshId st stored).state.users = st.users ∧
      r ∈ (handleRequest Route.postRegister body freshId st stored).state.users := by
  have key := postRegister_duplicate st stored body freshId r hr hu
  refine ⟨?_, ?_, key.2, ?_⟩
  · rw [key.1]; simp [response]
  · intro a b c; rw [key.1]; simp
  · rw [key.2]; exact hr

theorem register_duplicate_rejected_witness :
    response (handleRequest Route.postRegister aliceBody 2 oneUser none).effects
        = [Effect.send "User already exists"] ∧
      (∀ a b c, Effect.dbCreate a b c ∉
        (handleRequest Route.postRegister aliceBody 2 oneUser none).effects) ∧
      (handleRequest Route.postRegister aliceBody 2 oneUser none).state.users = oneUser.users ∧
      alice ∈ (handleRequest Route.postRegister aliceBody 2 oneUser none).state.users :=
  register_duplicate_rejected oneUser none aliceBody 2 alice (by decide) (by decide)


/-- The whole of `GET /` for a session without a user. -/
theorem getRoot_rejected (body : Body) (freshId : Nat) (st : AppState)
    (stored : Option Session) (h : (sessionMiddleware stored).user = none) :
    handleRequest Route.getRoot body freshId st stored =
      { state := st, stored := some (sessionMiddleware stored),
        effects := [Effect.next, Effect.consoleLog (sessionMiddleware stored),
                    Effect.redirect "/login"] } := by
  simp [handleRequest, routeHandlers, runChain, localsMiddleware, isLoggedIn, h]

/-- The whole of `GET /` for a session with a user. -/
theorem getRoot_accepted (body : Body) (freshId : Nat) (st : AppState)
    (stored : Option Session) (u : UserRecord) (h : (sessionMiddleware stored).user = some u) :
    handleRequest Route.getRoot body freshId st stored =
      { state := { users := st.users, localsUser := some u },
        stored := some (sessionMiddleware stored),
        effects := [Effect.next, Effect.consoleLog (sessionMiddleware stored),
                    Effect.next, Effect.render "index"] } := by
  simp [handleRequest, routeHandlers, runChain, localsMiddleware, isLoggedIn, getRoot, h]

/-- C2: `isLoggedIn` calls `next()` exactly once and sends nothing when
`req.session.user` is set; when it is not set it redirects to `/login` and does not call
`next()`.  Hence the protected handler of `GET /` (the render of `index`) runs only for
a session that holds a user, and every rejected `GET /` gets one and the same response,
the redirect to `/login`. -/
theorem isLoggedIn_guard (c : Ctx) (body : Body) (freshId : Nat) (st : AppState)
    (stored : Option Session) :
    (c.session.user ≠ none →
        nextCalls (isLoggedIn c).2 = 1 ∧ response (isLoggedIn c).2 = []) ∧
      (c.session.user = none →
        response (isLoggedIn c).2 = [Effect.redirect "/login"] ∧
          nextCalls (isLoggedIn c).2 = 0) ∧
      (Effect.render "index" ∈ (handleRequest Route.getRoot body freshId st stored).effects →
        ∃ u, stored = some { user := some u }) ∧
      (Effect.render "index" ∉ (handleRequest Route.getRoot body freshId st stored).effects →
        response (handleRequest Route.getRoot body freshId st stored).effects
          = [Effect.redirect "/login"]) := by
  refine ⟨?_, ?_, ?_, ?_⟩
  · intro h
    cases hu : c.session.user with
    | none => exact absurd hu h
    | some u => simp [isLoggedIn, hu, nextCalls, response]
  · intro h
    simp [isLoggedIn, h, nextCalls, response]
  · intro h
    cases hu : (sessionMiddleware stored).user with
    | none =>
      rw [getRoot_rejected body freshId st stored hu] at h
      simp at h
    | some u =>
      cases stored with
      | none => simp [sessionMiddleware] at hu
      | some s =>
        refine ⟨u, ?_⟩
        cases s with
        | mk su =>
          simp only [sessionMiddleware, Option.getD_some] at hu
          rw [hu]
  · intro h
    cases hu : (sessionMiddleware stored).user with
    | none =>
      rw [getRoot_rejected body freshId st stored hu]
      simp [response]
    | some u =>
      rw [getRoot_accepted body freshId st stored u hu] at h
      simp at h

theorem isLoggedIn_guard_witness :
    (nextCalls (isLoggedIn
        { users := [alice], localsUser := none, session := aliceSession, destroyed := false,
          freshId := 2 }).2 = 1 ∧
      response (isLoggedIn
        { users := [alice], localsUser := none, session := aliceSession, destroyed := false,
          freshId := 2 }).2 = []) ∧
    (∃ u, some aliceSession = some { user := some u }) :=
  ⟨(isLoggedIn_guard
      { users := [alice], localsUser := none, session := aliceSession, destroyed := false,
        freshId := 2 } aliceBody 2 oneUser (some aliceSession)).1 (by decide),
   (isLoggedIn_guard
      { users := [alice], localsUser := none, session := aliceSession, destroyed := false,
        freshId := 2 } aliceBody 2 oneUser (some aliceSession)).2.2.1 (by decide)⟩


/-- The whole of `POST /login` when the lookup finds `user` and the passwords are equal. -/
theorem postLogin_success (body : Body) (freshId : Nat) (st : AppState)
    (stored : Option Session) (user : UserRecord)
    (hfind : findOne st.users body.username = some user)
    (hpw : user.password = body.password) :
    (handleRequest Route.postLogin body freshId st stored).stored
        = some { user := some user } ∧
      (handleRequest Route.postLogin body freshId st stored).effects
        = [Effect.next, Effect.redirect "/"] ∧
      (handleRequest Route.postLogin body freshId st stored).state.users = st.users := by
  have hfr := localsMiddleware_frame
    { users := st.users, localsUser := st.localsUser, session := sessionMiddleware stored,
      destroyed := false, freshId := freshId }
  simp only [handleRequest, routeHandlers, runChain_single, postLogin, hfr.2.1, hfind]
  simp [hpw, hfr.2.2.2.1]

/-- The lookup finds the first record with the username: the record `r` when no record
before it has that username. -/
theorem findOne_first (pre post : List UserRecord) (r : UserRecord) (u : String)
    (hfirst : ∀ x ∈ pre, x.username ≠ u) (hu : r.username = u) :
    findOne (pre ++ r :: post) u = some r := by
  induction pre with
  | nil => simp [findOne, hu]
  | cons x xs ih =>
    have hx : x.username ≠ u := hfirst x (List.mem_cons_self x xs)
    have hrest : findOne (xs ++ r :: post) u = some r :=
      ih (fun y hy => hfirst y (List.mem_cons_of_mem x hy))
    have : findOne (x :: xs ++ r :: post) u = findOne (xs ++ r :: post) u := by
      simp [findOne, List.find?_cons, hx]
    rw [this]
    exact hrest

/-- C3, refuted as stated: the collection holds two records with the username alice, the
first with the password "pw123" and the second with "other".  The second record has the
submitted username and password, yet `POST /login` with (alice, other) is answered
"Invalid Creds!" and the session gets no user, because the lookup returns the first
record. -/
theorem login_duplicate_username_counterexample :
    aliceOther ∈ twoAlices.users ∧
      aliceOther.username = aliceOtherBody.username ∧
      aliceOther.password = aliceOtherBody.password ∧
      response (handleRequest Route.postLogin aliceOtherBody 3 twoAlices none).effects
        = [Effect.send "Invalid Creds!"] ∧
      (handleRequest Route.postLogin aliceOtherBody 3 twoAlices none).stored
        = some { user := none } := by
  decide

/-- C3, amended: when `r` is the first record of the collection with the submitted
username (no record before it has that username) and its password is the submitted one,
`POST /login` stores `r` as the session's user and redirects to "/", and a following
`GET /` on that session passes `isLoggedIn`: `next()` is called and the protected handler
renders `index`. -/
theorem login_binds_session (body : Body) (freshId : Nat) (st : AppState)
    (stored : Option Session) (r : UserRecord) (pre post : List UserRecord)
    (hstore : st.users = pre ++ r :: post)
    (hfirst : ∀ x ∈ pre, x.username ≠ body.username)
    (hu : r.username = body.username) (hp : r.password = body.password) :
    (handleRequest Route.postLogin body freshId st stored).stored = some { user := some r } ∧
      response (handleRequest Route.postLogin body freshId st stored).effects
        = [Effect.redirect "/"] ∧
      ∀ (body2 : Body) (freshId2 : Nat) (st2 : AppState),
        (handleRequest Route.getRoot body2 freshId2 st2
            (handleRequest Route.postLogin body freshId st stored).stored).effects
          = [Effect.next, Effect.consoleLog { user := some r }, Effect.next,
             Effect.render "index"] := by
  have hfind : findOne st.users body.username = some r := by
    rw [hstore]; exact findOne_first pre post r body.username hfirst hu
  obtain ⟨h1, h2, _⟩ := postLogin_success body freshId st stored r hfind hp
  refine ⟨h1, ?_, ?_⟩
  · rw [h2]; simp [response]
  · intro body2 freshId2 st2
    rw [h1, getRoot_accepted body2 freshId2 st2 (some { user := some r }) r rfl]
    rfl

theorem login_binds_session_witness :
    (handleRequest Route.postLogin aliceBody 3 twoAlices none).stored
        = some { user := some alice } ∧
      response (handleRequest Route.postLogin aliceBody 3 twoAlices none).effects
        = [Effect.redirect "/"] ∧
      ∀ (body2 : Body) (freshId2 : Nat) (st2 : AppState),
        (handleRequest Route.getRoot body2 freshId2 st2
            (handleRequest Route.postLogin aliceBody 3 twoAlices none).stored).effects
          = [Effect.next, Effect.consoleLog { user := some alice }, Effect.next,
             Effect.render "index"] :=
  login_binds_session aliceBody 3 twoAlices none alice [] [aliceOther] rfl
    (by simp) (by decide) (by decide)

/-- The whole of `GET /logout`. -/
theorem getLogout_outcome (body : Body) (freshId : Nat) (st : AppState)
    (stored : Option Session) :
    (handleRequest Route.getLogout body freshId st stored).stored = none ∧
      (handleRequest Route.getLogout body freshId st stored).effects
        = [Effect.next, Effect.redirect "/login"] ∧
      (handleRequest Route.getLogout body freshId st stored).state.users = st.users ∧
      (handleRequest Route.getLogout body freshId st stored).state.localsUser
        = (if (sessionMiddleware stored).user.isSome then (sessionMiddleware stored).user
            else st.localsUser) := by
  simp only [handleRequest, routeHandlers, runChain_single, getLogout, localsMiddleware]
  by_cases h : (sessionMiddleware stored).user.isSome = true <;> simp [h]

/-- C4: after `GET /logout` on any session the session is gone, so the next request on
it starts without a user and `GET /` is rejected with the redirect to `/login`; a second
`GET /logout` also succeeds, with the same stored session, the same application state
and the same effects as the first. -/
theorem logout_then_rejected (body body2 : Body) (freshId freshId2 : Nat) (st st2 : AppState)
    (stored : Option Session) :
    (sessionMiddleware (handleRequest Route.getLogout body freshId st stored).stored).user
        = none ∧
      response (handleRequest Route.getRoot body2 freshId2 st2
          (handleRequest Route.getLogout body freshId st stored).stored).effects
        = [Effect.redirect "/login"] ∧
      Effect.render "index" ∉ (handleRequest Route.getRoot body2 freshId2 st2
          (handleRequest Route.getLogout body freshId st stored).stored).effects ∧
      handleRequest Route.getLogout body2 freshId2
          (handleRequest Route.getLogout body freshId st stored).state
          (handleRequest Route.getLogout body freshId st stored).stored
        = handleRequest Route.getLogout body freshId st stored := by
  obtain ⟨h1, h2, h3, h4⟩ := getLogout_outcome body freshId st stored
  have hnone : (sessionMiddleware none).user = none := rfl
  refine ⟨by rw [h1]; rfl, ?_, ?_, ?_⟩
  · rw [h1, getRoot_rejected body2 freshId2 st2 none hnone]
    simp [response]
  · rw [h1, getRoot_rejected body2 freshId2 st2 none hnone]
    simp
  · obtain ⟨k1, k2, k3, k4⟩ := getLogout_outcome body2 freshId2
      (handleRequest Route.getLogout body freshId st stored).state
      (handleRequest Route.getLogout body freshId st stored).stored
    rw [h1] at k4 k3 k2 k1 ⊢
    simp only [hnone, Option.isSome_none, Bool.false_eq_true, if_false] at k4
    generalize handleRequest Route.getLogout body2 freshId2
      (handleRequest Route.getLogout body freshId st stored).state none = o2 at k1 k2 k3 k4 ⊢
    generalize handleRequest Route.getLogout body freshId st stored = o1 at h1 h2 k1 k2 k3 k4 ⊢
    cases o1 with
    | mk s1 t1 e1 =>
      cases o2 with
      | mk s2 t2 e2 =>
        cases s1; cases s2
        simp_all


/-- The whole of `POST /register` for a username the lookup does not find. -/
theorem postRegister_new (body : Body) (freshId : Nat) (st : AppState)
    (stored : Option Session) (hnew : findOne st.users body.username = none) :
    (handleRequest Route.postRegister body freshId st stored).state.users
        = st.users ++ [{ id := freshId, username := body.username, email := body.email,
                         password := body.password }] ∧
      (handleRequest Route.postRegister body freshId st stored).effects
        = [Effect.next, Effect.dbCreate body.username body.email body.password,
           Effect.redirect "/login"] := by
  have hfr := localsMiddleware_frame
    { users := st.users, localsUser := st.localsUser, session := sessionMiddleware stored,
      destroyed := false, freshId := freshId }
  simp only [handleRequest, routeHandlers, runChain_single, postRegister, hfr.2.1, hnew]
  simp [hfr.2.1, hfr.2.2.2.2, create]

/-- The whole of `POST /login` when the lookup finds `user` and the passwords differ. -/
theorem postLogin_wrong_password (body : Body) (freshId : Nat) (st : AppState)
    (stored : Option Session) (user : UserRecord)
    (hfind : findOne st.users body.username = some user)
    (hpw : user.password ≠ body.password) :
    (handleRequest Route.postLogin body freshId st stored).stored
        = some (sessionMiddleware stored) ∧
      (handleRequest Route.postLogin body freshId st stored).effects
        = [Effect.next, Effect.send "Invalid Creds!"] := by
  have hfr := localsMiddleware_frame
    { users := st.users, localsUser := st.localsUser, session := sessionMiddleware stored,
      destroyed := false, freshId := freshId }
  simp only [handleRequest, routeHandlers, runChain_single, postLogin, hfr.2.1, hfind]
  simp [hpw, hfr.2.2.1, hfr.2.2.2.1]

/-- The whole of `POST /login` when the lookup finds nothing. -/
theorem postLogin_unknown (body : Body) (freshId : Nat) (st : AppState)
    (stored : Option Session) (hfind : findOne st.users body.username = none) :
    (handleRequest Route.postLogin body freshId st stored).stored
        = some (sessionMiddleware stored) ∧
      (handleRequest Route.postLogin body freshId st stored).effects
        = [Effect.next, Effect.redirect "/register"] := by
  have hfr := localsMiddleware_frame
    { users := st.users, localsUser := st.localsUser, session := sessionMiddleware stored,
      destroyed := false, freshId := freshId }
  simp only [handleRequest, routeHandlers, runChain_single, postLogin, hfr.2.1, hfind]
  simp [hfr.2.2.1, hfr.2.2.2.1]

/-- No route other than `POST /register` for a new username changes the collection, and
that one adds a record under a username the collection did not have: every request keeps
the invariant that there is one record per username. -/
theorem handleRequest_preserves_unique (route : Route) (body : Body) (freshId : Nat)
    (st : AppState) (stored : Option Session) (huniq : UniqueUsernames st.users) :
    UniqueUsernames (handleRequest route body freshId st stored).state.users := by
  have hfr := localsMiddleware_frame
    { users := st.users, localsUser := st.localsUser, session := sessionMiddleware stored,
      destroyed := false, freshId := freshId }
  cases route with
  | getRoot =>
    cases hu : (sessionMiddleware stored).user with
    | none => rw [getRoot_rejected body freshId st stored hu]; exact huniq
    | some u => rw [getRoot_accepted body freshId st stored u hu]; exact huniq
  | getLogin =>
    simp only [handleRequest, routeHandlers, runChain_single, getLogin]
    split <;> (rw [hfr.2.1]; exact huniq)
  | getRegister =>
    simp only [handleRequest, routeHandlers, runChain_single, getRegister]
    split <;> (rw [hfr.2.1]; exact huniq)
  | postRegister =>
    cases hf : findOne st.users body.username with
    | some r =>
      obtain ⟨hname, hmem⟩ := findOne_some_username hf
      rw [(postRegister_duplicate st stored body freshId r hmem hname).2]
      exact huniq
    | none =>
      rw [(postRegister_new body freshId st stored hf).1]
      unfold UniqueUsernames at huniq ⊢
      rw [List.map_append, List.nodup_append]
      refine ⟨huniq, by simp, ?_⟩
      intro a ha hb
      simp only [List.map_cons, List.map_nil, List.mem_singleton] at hb
      obtain ⟨r, hr, hra⟩ := List.mem_map.mp ha
      exact findOne_eq_none_iff.mp hf r hr (by rw [hra, hb])
  | postLogin =>
    simp only [handleRequest, routeHandlers, runChain_single, postLogin]
    split
    · rw [hfr.2.1]; exact huniq
    · split <;> (simp only [hfr.2.1]; exact huniq)
  | getLogout => rw [(getLogout_outcome body freshId st stored).2.2.1]; exact huniq

/-- C5, refuted as stated: registering alice with the password "pw123" in an empty
collection stores a record whose credential is the string "pw123" itself, and the login
that follows is accepted for the submitted "pw123" and refused for "wrong". -/
theorem register_stores_plaintext_counterexample :
    (handleRequest Route.postRegister aliceBody 1 noUsers none).state.users
        = [{ id := 1, username := "alice", email := "a@x.com", password := "pw123" }] ∧
      aliceBody.password = "pw123" ∧
      response (handleRequest Route.postLogin aliceBody 2
          (handleRequest Route.postRegister aliceBody 1 noUsers none).state none).effects
        = [Effect.redirect "/"] ∧
      response (handleRequest Route.postLogin aliceWrongBody 2
          (handleRequest Route.postRegister aliceBody 1 noUsers none).state none).effects
        = [Effect.send "Invalid Creds!"] := by
  decide

/-- C5, amended: `POST /register` for a new username stores the submitted password
unchanged as the credential of the created record, and `POST /login` for a username the
lookup finds is accepted (the answer is the redirect to "/") exactly when the stored
credential is equal to the submitted password. -/
theorem register_stores_submitted_password (body body2 : Body) (freshId freshId2 : Nat)
    (st st2 : AppState) (stored stored2 : Option Session) (user : UserRecord)
    (hnew : findOne st.users body.username = none)
    (hfind : findOne st2.users body2.username = some user) :
    (handleRequest Route.postRegister body freshId st stored).state.users
        = st.users ++ [{ id := freshId, username := body.username, email := body.email,
                         password := body.password }] ∧
      (response (handleRequest Route.postLogin body2 freshId2 st2 stored2).effects
          = [Effect.redirect "/"] ↔ user.password = body2.password) := by
  refine ⟨(postRegister_new body freshId st stored hnew).1, ?_⟩
  by_cases hpw : user.password = body2.password
  · rw [(postLogin_success body2 freshId2 st2 stored2 user hfind hpw).2.1]
    simp [response, hpw]
  · rw [(postLogin_wrong_password body2 freshId2 st2 stored2 user hfind hpw).2]
    simp [response, hpw]

theorem register_stores_submitted_password_witness :
    (handleRequest Route.postRegister aliceBody 1 noUsers none).state.users
        = noUsers.users ++ [{ id := 1, username := aliceBody.username,
                              email := aliceBody.email, password := aliceBody.password }] ∧
      (response (handleRequest Route.postLogin aliceWrongBody 2 oneUser none).effects
          = [Effect.redirect "/"] ↔ alice.password = aliceWrongBody.password) :=
  register_stores_submitted_password aliceBody aliceWrongBody 1 2 noUsers oneUser none none
    alice (by decide) (by decide)


/-- C6, refuted as stated: with alice registered, the failing login for the unknown
username bob is answered with the redirect to `/register` and the failing login for
alice with a wrong password with the text "Invalid Creds!"; the two responses differ. -/
theorem login_failures_differ_counterexample :
    findOne oneUser.users bobBody.username = none ∧
      findOne oneUser.users aliceWrongBody.username = some alice ∧
      alice.password ≠ aliceWrongBody.password ∧
      response (handleRequest Route.postLogin bobBody 2 oneUser none).effects
        = [Effect.redirect "/register"] ∧
      response (handleRequest Route.postLogin aliceWrongBody 2 oneUser none).effects
        = [Effect.send "Invalid Creds!"] ∧
      response (handleRequest Route.postLogin bobBody 2 oneUser none).effects
        ≠ response (handleRequest Route.postLogin aliceWrongBody 2 oneUser none).effects := by
  decide

/-- C6, amended: for every user collection, a failing `POST /login` with an unknown
username is answered with the redirect to `/register`, and one with a known username
and a wrong password with the text "Invalid Creds!"; the two responses are different,
and neither request binds a user to its session. -/
theorem login_failure_responses (unknown wrong : Body) (freshId freshId2 : Nat)
    (st : AppState) (stored stored2 : Option Session) (user : UserRecord)
    (hunknown : findOne st.users unknown.username = none)
    (hknown : findOne st.users wrong.username = some user)
    (hpw : user.password ≠ wrong.password) :
    response (handleRequest Route.postLogin unknown freshId st stored).effects
        = [Effect.redirect "/register"] ∧
      response (handleRequest Route.postLogin wrong freshId2 st stored2).effects
        = [Effect.send "Invalid Creds!"] ∧
      response (handleRequest Route.postLogin unknown freshId st stored).effects
        ≠ response (handleRequest Route.postLogin wrong freshId2 st stored2).effects ∧
      (handleRequest Route.postLogin unknown freshId st stored).stored
        = some (sessionMiddleware stored) ∧
      (handleRequest Route.postLogin wrong freshId2 st stored2).stored
        = some (sessionMiddleware stored2) := by
  obtain ⟨a1, a2⟩ := postLogin_unknown unknown freshId st stored hunknown
  obtain ⟨b1, b2⟩ := postLogin_wrong_password wrong freshId2 st stored2 user hknown hpw
  rw [a2, b2]
  exact ⟨by simp [response], by simp [response], by simp [response], a1, b1⟩

theorem login_failure_responses_witness :
    response (handleRequest Route.postLogin bobBody 2 oneUser none).effects
        = [Effect.redirect "/register"] ∧
      response (handleRequest Route.postLogin aliceWrongBody 3 oneUser none).effects
        = [Effect.send "Invalid Creds!"] ∧
      response (handleRequest Route.postLogin bobBody 2 oneUser none).effects
        ≠ response (handleRequest Route.postLogin aliceWrongBody 3 oneUser none).effects ∧
      (handleRequest Route.postLogin bobBody 2 oneUser none).stored
        = some (sessionMiddleware none) ∧
      (handleRequest Route.postLogin aliceWrongBody 3 oneUser none).stored
        = some (sessionMiddleware none) :=
  login_failure_responses bobBody aliceWrongBody 2 3 oneUser none none alice (by decide)
    (by decide) (by decide)

/-- C7, refuted as stated: after a `GET /` by alice's logged-in session, a `GET /` of
another client (no stored session) still finds alice in `app.locals.user`, and so does
a `GET /` of the same client after its `GET /logout`. -/
theorem locals_user_persists_counterexample :
    (handleRequest Route.getRoot aliceBody 2
        (handleRequest Route.getRoot aliceBody 2 oneUser (some aliceSession)).state
        none).state.localsUser = some alice ∧
      (handleRequest Route.getLogout aliceBody 2 oneUser (some aliceSession)).stored = none ∧
      (handleRequest Route.getRoot aliceBody 2
        (handleRequest Route.getLogout aliceBody 2 oneUser (some aliceSession)).state
        (handleRequest Route.getLogout aliceBody 2 oneUser (some aliceSession)).stored
        ).state.localsUser = some alice := by
  decide

/-- C7, amended: `app.locals.user` belongs to the application, not to one request.  On
every route, a request whose session holds a user leaves that user in `app.locals.user`,
and a request whose session holds no user leaves `app.locals.user` as the earlier
requests left it. -/
theorem locals_user_after_request (route : Route) (body : Body) (freshId : Nat)
    (st : AppState) (stored : Option Session) :
    (handleRequest route body freshId st stored).state.localsUser
      = (if (sessionMiddleware stored).user.isSome then (sessionMiddleware stored).user
          else st.localsUser) := by
  have hfr := localsMiddleware_frame
    { users := st.users, localsUser := st.localsUser, session := sessionMiddleware stored,
      destroyed := false, freshId := freshId }
  have hloc : (localsMiddleware
      { users := st.users, localsUser := st.localsUser, session := sessionMiddleware stored,
        destroyed := false, freshId := freshId }).1.localsUser
      = (if (sessionMiddleware stored).user.isSome then (sessionMiddleware stored).user
          else st.localsUser) := by
    unfold localsMiddleware
    by_cases h : (sessionMiddleware stored).user.isSome = true <;> simp [h]
  cases route with
  | getRoot =>
    cases hu : (sessionMiddleware stored).user with
    | none => rw [getRoot_rejected body freshId st stored hu]; simp
    | some u => rw [getRoot_accepted body freshId st stored u hu]; simp
  | getLogin =>
    simp only [handleRequest, routeHandlers, runChain_single, getLogin]
    split <;> exact hloc
  | getRegister =>
    simp only [handleRequest, routeHandlers, runChain_single, getRegister]
    split <;> exact hloc
  | postRegister =>
    simp only [handleRequest, routeHandlers, runChain_single, postRegister]
    split <;> exact hloc
  | postLogin =>
    simp only [handleRequest, routeHandlers, runChain_single, postLogin]
    split
    · exact hloc
    · split <;> exact hloc
  | getLogout => exact (getLogout_outcome body freshId st stored).2.2.2

end AuthSession

namespace JwtAuthDemo

/-! ## The JWT demo -/

/-- The toy `compare` accepts every toy hash of the same password. -/
theorem sampleBcrypt_compare_hash (plain : String) (rounds salt : Nat) :
    sampleBcrypt.compare plain (sampleBcrypt.hash plain rounds salt) = true := by
  simp only [sampleBcrypt]
  induction salt with
  | zero => simp [List.dropWhile]
  | succ n ih => simp [List.replicate_succ, List.dropWhile]

/-- C8: `GET /protected` answers 403 when the authorization header is absent or empty;
otherwise it answers 401 whenever `jwt.verify` of the second space-separated part throws,
in particular when there is no second part, and returns the protected data when that part
verifies.  The handler never throws, and a response that carries the protected data comes
from a header whose second part verified. -/
theorem protected_route_responses (jwt : Jwt) (env : Env) (authorization : Option String) :
    (authorization = none ∨ authorization = some "" →
        protectedRoute jwt env authorization = Result.responded
          { status := 403, message := "Token required", token := none, user := none }) ∧
      (∀ t e, authorization = some t → t ≠ "" →
        jwtVerify jwt env.now (secondPart t) = Except.error e →
        protectedRoute jwt env authorization = Result.responded
          { status := 401, message := "Invalid or expired token", token := none,
            user := none }) ∧
      (∀ t, authorization = some t → t ≠ "" → secondPart t = none →
        protectedRoute jwt env authorization = Result.responded
          { status := 401, message := "Invalid or expired token", token := none,
            user := none }) ∧
      (∀ t p, authorization = some t → t ≠ "" →
        jwtVerify jwt env.now (secondPart t) = Except.ok p →
        protectedRoute jwt env authorization = Result.responded
          { status := 200, message := "This is protected data", token := none,
            user := some p }) ∧
      (∃ r, protectedRoute jwt env authorization = Result.responded r) ∧
      (∀ r, protectedRoute jwt env authorization = Result.responded r →
        (r.user ≠ none ∨ r.message = "This is protected data") →
        ∃ t s p, authorization = some t ∧ secondPart t = some s ∧ s ≠ "" ∧
          jwt.verify s env.now = some p ∧ r.user = some p) := by
  have h403 : authorization = none ∨ authorization = some "" →
      protectedRoute jwt env authorization = Result.responded
        { status := 403, message := "Token required", token := none, user := none } := by
    rintro (h | h) <;> simp [h, protectedRoute]
  have h401 : ∀ t e, authorization = some t → t ≠ "" →
      jwtVerify jwt env.now (secondPart t) = Except.error e →
      protectedRoute jwt env authorization = Result.responded
        { status := 401, message := "Invalid or expired token", token := none,
          user := none } := by
    intro t e ht hne hv
    simp [ht, protectedRoute, hne, protectedTry, hv]
  have h200 : ∀ t p, authorization = some t → t ≠ "" →
      jwtVerify jwt env.now (secondPart t) = Except.ok p →
      protectedRoute jwt env authorization = Result.responded
        { status := 200, message := "This is protected data", token := none,
          user := some p } := by
    intro t p ht hne hv
    simp [ht, protectedRoute, hne, protectedTry, hv]
  refine ⟨h403, h401, ?_, h200, ?_, ?_⟩
  · intro t ht hne hs
    exact h401 t "jwt must be provided" ht hne (by simp [hs, jwtVerify])
  · cases authorization with
    | none => exact ⟨_, h403 (Or.inl rfl)⟩
    | some t =>
      by_cases hne : t = ""
      · exact ⟨_, h403 (Or.inr (by rw [hne]))⟩
      · cases hv : jwtVerify jwt env.now (secondPart t) with
        | error e => exact ⟨_, h401 t e rfl hne hv⟩
        | ok p => exact ⟨_, h200 t p rfl hne hv⟩
  · intro r hr hdata
    cases authorization with
    | none =>
      rw [h403 (Or.inl rfl), Result.responded.injEq] at hr
      subst hr
      simp at hdata
    | some t =>
      by_cases hne : t = ""
      · rw [h403 (Or.inr (by rw [hne])), Result.responded.injEq] at hr
        subst hr
        simp at hdata
      · cases hv : jwtVerify jwt env.now (secondPart t) with
        | error e =>
          rw [h401 t e rfl hne hv, Result.responded.injEq] at hr
          subst hr
          simp at hdata
        | ok p =>
          rw [h200 t p rfl hne hv, Result.responded.injEq] at hr
          subst hr
          cases hs : secondPart t with
          | none => simp [hs, jwtVerify] at hv
          | some s =>
            rw [hs] at hv
            by_cases hse : s = ""
            · simp [jwtVerify, hse] at hv
            · cases hj : jwt.verify s env.now with
              | none => simp [jwtVerify, hse, hj] at hv
              | some q =>
                simp only [jwtVerify, hse, if_false, hj, Except.ok.injEq] at hv
                subst hv
                exact ⟨t, s, q, rfl, hs, hse, hj, rfl⟩

theorem protected_route_responses_witness :
    protectedRoute sampleJwt sampleEnv (some "") = Result.responded
        { status := 403, message := "Token required", token := none, user := none } ∧
      protectedRoute sampleJwt sampleEnv (some "Bearer") = Result.responded
        { status := 401, message := "Invalid or expired token", token := none,
          user := none } ∧
      protectedRoute sampleJwt sampleEnv (some "Bearer tok:alice") = Result.responded
        { status := 200, message := "This is protected data", token := none,
          user := some { username := "alice", iat := 1000, exp := 4600 } } :=
  ⟨(protected_route_responses sampleJwt sampleEnv (some "")).1 (Or.inr rfl),
   (protected_route_responses sampleJwt sampleEnv (some "Bearer")).2.2.1 "Bearer" rfl
     (by decide) (by decide),
   (protected_route_responses sampleJwt sampleEnv (some "Bearer tok:alice")).2.2.2.1
     "Bearer tok:alice" { username := "alice", iat := 1000, exp := 4600 } rfl (by decide)
     rfl⟩


/-- The lookup of `login` in a list extended by `register`: with no earlier record for the
username, it finds the record just pushed. -/
theorem find_after_register (bc : Bcrypt) (jwt : Jwt) (env : Env) (body : Body)
    (users : List User)
    (hnew : users.find? (fun u => u.username == body.username) = none) :
    (register bc jwt env body users).1.find? (fun u => u.username == body.username)
      = some { username := body.username,
               password := bc.hash body.password 10 env.salt } := by
  simp [register, List.find?_append, hnew]

/-- C9: from a user list with no record for the username, `POST /register` followed by
`POST /login` with the same username and password answers "Logged in" with a token,
provided `bcrypt.compare` accepts the password against every hash `bcrypt.hash` makes of
it; and a login whose `bcrypt.compare` rejects the password against the stored hash
answers with the failure message and without a token. -/
theorem register_then_login (bc : Bcrypt) (jwt : Jwt) (env env2 : Env) (body : Body)
    (users : List User)
    (hnew : users.find? (fun u => u.username == body.username) = none)
    (hbc : ∀ salt, bc.compare body.password (bc.hash body.password 10 salt) = true) :
    login bc jwt env2 body (register bc jwt env body users).1
        = { status := 200, message := "Logged in",
            token := some (jwt.sign body.username env2.now), user := none } ∧
      ∀ (users2 : List User) (body2 : Body) (user : User),
        users2.find? (fun u => u.username == body2.username) = some user →
        bc.compare body2.password user.password = false →
        login bc jwt env2 body2 users2
          = { status := 400, message := "Invalid username or password", token := none,
              user := none } := by
  constructor
  · unfold login
    rw [find_after_register bc jwt env body users hnew]
    simp [hbc env.salt]
  · intro users2 body2 user hfind hrej
    unfold login
    rw [hfind]
    simp [hrej]

theorem register_then_login_witness :
    login sampleBcrypt sampleJwt sampleEnv aliceBody
        (register sampleBcrypt sampleJwt sampleEnv aliceBody []).1
        = { status := 200, message := "Logged in",
            token := some (sampleJwt.sign aliceBody.username sampleEnv.now), user := none } ∧
      login sampleBcrypt sampleJwt sampleEnv aliceWrongBody
        [{ username := "alice", password := "sss$pw123" }]
        = { status := 400, message := "Invalid username or password", token := none,
            user := none } :=
  ⟨(register_then_login sampleBcrypt sampleJwt sampleEnv sampleEnv aliceBody [] rfl
      (fun salt => sampleBcrypt_compare_hash aliceBody.password 10 salt)).1,
   (register_then_login sampleBcrypt sampleJwt sampleEnv sampleEnv aliceBody [] rfl
      (fun salt => sampleBcrypt_compare_hash aliceBody.password 10 salt)).2
      [{ username := "alice", password := "sss$pw123" }] aliceWrongBody
      { username := "alice", password := "sss$pw123" } (by decide) (by decide)⟩

/-- C10: a `POST /login` that fails because no user has the submitted username and one
that fails because `bcrypt.compare` rejects the password return the same response, status
400 with the message "Invalid username or password"; and every login that is not
answered "Logged in" with status 200 returns exactly this response. -/
theorem login_failures_uniform (bc : Bcrypt) (jwt : Jwt) (env env2 : Env)
    (users : List User) (unknown wrong : Body) :
    (users.find? (fun u => u.username == unknown.username) = none →
        login bc jwt env unknown users
          = { status := 400, message := "Invalid username or password", token := none,
              user := none }) ∧
      (∀ user, users.find? (fun u => u.username == wrong.username) = some user →
        bc.compare wrong.password user.password = false →
        login bc jwt env2 wrong users
          = { status := 400, message := "Invalid username or password", token := none,
              user := none }) ∧
      (∀ user, users.find? (fun u => u.username == unknown.username) = none →
        users.find? (fun u => u.username == wrong.username) = some user →
        bc.compare wrong.password user.password = false →
        (login bc jwt env unknown users).status = (login bc jwt env2 wrong users).status ∧
          (login bc jwt env unknown users).message
            = (login bc jwt env2 wrong users).message) ∧
      ((login bc jwt env unknown users).status ≠ 200 →
        login bc jwt env unknown users
          = { status := 400, message := "Invalid username or password", token := none,
              user := none }) := by
  have hA : users.find? (fun u => u.username == unknown.username) = none →
      login bc jwt env unknown users
        = { status := 400, message := "Invalid username or password", token := none,
            user := none } := by
    intro h
    simp [login, h]
  have hB : ∀ user, users.find? (fun u => u.username == wrong.username) = some user →
      bc.compare wrong.password user.password = false →
      login bc jwt env2 wrong users
        = { status := 400, message := "Invalid username or password", token := none,
            user := none } := by
    intro user h hrej
    simp [login, h, hrej]
  refine ⟨hA, hB, ?_, ?_⟩
  · intro user h1 h2 h3
    rw [hA h1, hB user h2 h3]
    exact ⟨rfl, rfl⟩
  · intro hst
    cases hf : users.find? (fun u => u.username == unknown.username) with
    | none => exact hA hf
    | some user =>
      cases hc : bc.compare unknown.password user.password with
      | false => simp [login, hf, hc]
      | true => simp [login, hf, hc] at hst

theorem login_failures_uniform_witness :
    login sampleBcrypt sampleJwt sampleEnv bobBody
        [{ username := "alice", password := "sss$pw123" }]
        = { status := 400, message := "Invalid username or password", token := none,
            user := none } ∧
      login sampleBcrypt sampleJwt sampleEnv aliceWrongBody
        [{ username := "alice", password := "sss$pw123" }]
        = { status := 400, message := "Invalid username or password", token := none,
            user := none } :=
  ⟨(login_failures_uniform sampleBcrypt sampleJwt sampleEnv sampleEnv
      [{ username := "alice", password := "sss$pw123" }] bobBody aliceWrongBody).1
      (by decide),
   (login_failures_uniform sampleBcrypt sampleJwt sampleEnv sampleEnv
      [{ username := "alice", password := "sss$pw123" }] bobBody aliceWrongBody).2.1
      { username := "alice", password := "sss$pw123" } (by decide) (by decide)⟩

end JwtAuthDemo

namespace InterviewPrep

/-! ## Bracket validation -/

theorem bracketMap_closing_none {o c : Char} (h : bracketMap o = some c) :
    bracketMap c = none := by
  unfold bracketMap at h
  split_ifs at h <;> simp at h <;> subst h <;> decide

theorem loop_balanced_append {s : List Char} (hs : Balanced s) :
    ∀ stack rest, isValidBracketsLoop stack (s ++ rest) = isValidBracketsLoop stack rest := by
  induction hs with
  | nil => intro stack rest; rfl
  | wrap o c s hoc _ ih =>
    intro stack rest
    have hc := bracketMap_closing_none hoc
    simp only [List.cons_append, List.append_assoc, List.singleton_append]
    rw [isValidBracketsLoop]
    simp only [hoc, Option.isSome_some, if_true]
    rw [ih, isValidBracketsLoop]
    simp [hc, hoc, pop]
  | append s t _ _ ihs iht =>
    intro stack rest
    rw [List.append_assoc, ihs, iht]

theorem Closes.prepend {b stack t : List Char} (hb : Balanced b) (h : Closes stack t) :
    Closes stack (b ++ t) := by
  cases h with
  | done s hs => exact Closes.done _ (Balanced.append _ _ hb hs)
  | close o c stack s t hoc hs ht =>
    rw [← List.append_assoc]
    exact Closes.close o c stack (b ++ s) t hoc (Balanced.append _ _ hb hs) ht

theorem loop_true_closes : ∀ (s stack : List Char),
    isValidBracketsLoop stack s = true → Closes stack s := by
  intro s
  induction s with
  | nil =>
    intro stack h
    simp [isValidBracketsLoop] at h
    subst h
    exact Closes.done _ Balanced.nil
  | cons char rest ih =>
    intro stack h
    rw [isValidBracketsLoop] at h
    by_cases hopen : (bracketMap char).isSome = true
    · simp only [hopen, if_true] at h
      obtain ⟨c, hc⟩ := Option.isSome_iff_exists.mp hopen
      have h1 := ih _ h
      cases h1 with
      | close o c1 stack1 s1 t1 hoc hs1 ht1 =>
        rw [hc] at hoc
        cases hoc
        have hb : Balanced (char :: s1 ++ [c]) := Balanced.wrap char c s1 hc hs1
        have := Closes.prepend hb ht1
        simpa using this
    · simp only [hopen] at h
      cases stack with
      | nil => simp [pop] at h
      | cons last stack1 =>
        have hb : (pop (last :: stack1)).1.bind bracketMap = bracketMap last := rfl
        have hp : (pop (last :: stack1)).2 = stack1 := rfl
        simp only [Bool.false_eq_true, if_false] at h
        rw [hb, hp] at h
        by_cases hm : bracketMap last = some char
        · simp only [hm, bne_self_eq_false, Bool.false_eq_true, if_false] at h
          exact Closes.close last char stack1 [] rest hm Balanced.nil (ih _ h)
        · have hne : (bracketMap last != some char) = true := by simpa using hm
          rw [if_pos hne] at h
          cases h

theorem isValidBrackets_iff_balanced (s : String) : isValidBrackets s = true ↔ Balanced s.data := by
  constructor
  · intro h
    have := loop_true_closes s.data [] h
    cases this with
    | done _ hb => exact hb
  · intro h
    have := loop_balanced_append h [] []
    rw [List.append_nil] at this
    unfold isValidBrackets
    rw [this]
    rfl

/-- C11: `isValidBrackets(s)` returns true exactly when `s` is balanced: built from the
empty string by enclosing a balanced string in a pair of brackets of one kind and by
putting balanced strings one after the other.  This holds for every string, in
particular for those made of the six bracket characters; "()", "()[]{}" and "{[]}"
are accepted, "(]" and "([)]" are rejected. -/
theorem isValidBrackets_correct (s : String) :
    (isValidBrackets s = true ↔ Balanced s.data) ∧
      isValidBrackets "()" = true ∧ isValidBrackets "()[]\x7b\x7d" = true ∧
      isValidBrackets "(]" = false ∧ isValidBrackets "([)]" = false ∧
      isValidBrackets "\x7b[]\x7d" = true :=
  ⟨isValidBrackets_iff_balanced s, by decide, by decide, by decide, by decide, by decide⟩

theorem isValidBrackets_correct_witness :
    isValidBrackets "([])()" = true ∧ Balanced "([])()".data :=
  ⟨by decide, (isValidBrackets_correct "([])()").1.mp (by decide)⟩

/-! ## Intersection of two sorted arrays -/

theorem intersectLoop_eq {α : Type} [LinearOrder α] (arr1 arr2 : List α) :
    ∀ (n i j : Nat) (result : List α), (arr1.length - i) + (arr2.length - j) = n →
      intersectLoop arr1 arr2 i j result
        = result ++ intersectRest (arr1.drop i) (arr2.drop j) := by
  intro n
  induction n using Nat.strong_induction_on with
  | _ n ih =>
    intro i j result hn
    rw [intersectLoop]
    by_cases h : i < arr1.length ∧ j < arr2.length
    · rw [dif_pos h]
      have h1 : arr1.drop i = arr1.get ⟨i, h.1⟩ :: arr1.drop (i + 1) :=
        List.drop_eq_getElem_cons h.1
      have h2 : arr2.drop j = arr2.get ⟨j, h.2⟩ :: arr2.drop (j + 1) :=
        List.drop_eq_getElem_cons h.2
      rw [h1, h2, intersectRest]
      by_cases e : arr1.get ⟨i, h.1⟩ = arr2.get ⟨j, h.2⟩
      · rw [if_pos e, if_pos e, ih _ (by omega) (i + 1) (j + 1) _ rfl]
        simp
      · rw [if_neg e, if_neg e]
        by_cases l : arr1.get ⟨i, h.1⟩ < arr2.get ⟨j, h.2⟩
        · rw [if_pos l, if_pos l, ih _ (by omega) (i + 1) j _ rfl, h2]
        · rw [if_neg l, if_neg l, ih _ (by omega) i (j + 1) _ rfl, h1]
    · rw [dif_neg h]
      rcases not_and_or.mp h with h | h
      · rw [List.drop_eq_nil_of_le (by omega), intersectRest]; simp
      · rw [List.drop_eq_nil_of_le (by omega : arr2.length ≤ j)]
        cases arr1.drop i <;> simp [intersectRest]

theorem intersect_eq_rest {α : Type} [LinearOrder α] (arr1 arr2 : List α) :
    intersect arr1 arr2 = intersectRest arr1 arr2 := by
  unfold intersect
  rw [intersectLoop_eq arr1 arr2 _ 0 0 [] rfl]
  simp

theorem intersectRest_sublist {α : Type} [LinearOrder α] :
    ∀ (n : Nat) (l1 l2 : List α), l1.length + l2.length = n →
      (intersectRest l1 l2).Sublist l1 := by
  intro n
  induction n using Nat.strong_induction_on with
  | _ n ih =>
    intro l1 l2 hn
    cases l1 with
    | nil => simp [intersectRest]
    | cons a as =>
      cases l2 with
      | nil => simp [intersectRest]
      | cons b bs =>
        rw [intersectRest]
        simp only [List.length_cons] at hn
        split_ifs with e l
        · exact (ih (as.length + bs.length) (by omega) as bs rfl).cons₂ a
        · exact (ih (as.length + (bs.length + 1)) (by omega) as (b :: bs) rfl).cons a
        · exact ih (as.length + 1 + bs.length) (by omega) (a :: as) bs rfl

theorem count_eq_zero_of_lt_sorted {α : Type} [LinearOrder α] {a b : α} {bs : List α}
    (hs : (b :: bs).Sorted (· ≤ ·)) (hab : a < b) : (b :: bs).count a = 0 := by
  rw [List.count_eq_zero]
  intro hmem
  rcases List.mem_cons.mp hmem with h | h
  · exact absurd h (ne_of_lt hab)
  · have := List.rel_of_sorted_cons hs a h
    exact absurd (lt_of_lt_of_le hab this) (lt_irrefl a)

theorem intersectRest_count {α : Type} [LinearOrder α] (v : α) :
    ∀ (n : Nat) (l1 l2 : List α), l1.length + l2.length = n →
      l1.Sorted (· ≤ ·) → l2.Sorted (· ≤ ·) →
      (intersectRest l1 l2).count v = min (l1.count v) (l2.count v) := by
  intro n
  induction n using Nat.strong_induction_on with
  | _ n ih =>
    intro l1 l2 hn s1 s2
    cases l1 with
    | nil => simp [intersectRest]
    | cons a as =>
      cases l2 with
      | nil => simp [intersectRest]
      | cons b bs =>
        rw [intersectRest]
        simp only [List.length_cons] at hn
        have sa := List.Sorted.of_cons s1
        have sb := List.Sorted.of_cons s2
        have ca : (a :: as).count v = as.count v + if a == v then 1 else 0 := List.count_cons v a as
        have cb : (b :: bs).count v = bs.count v + if b == v then 1 else 0 := List.count_cons v b bs
        split_ifs with e l
        · subst e
          rw [List.count_cons, ih (as.length + bs.length) (by omega) as bs rfl sa sb, ca, cb]
          split_ifs <;> simp [Nat.add_min_add_right]
        · rw [ih (as.length + (bs.length + 1)) (by omega) as (b :: bs) rfl sa s2, ca]
          by_cases hv : a = v
          · subst hv
            rw [count_eq_zero_of_lt_sorted s2 l]; simp
          · simp [hv]
        · have l2 : b < a := lt_of_le_of_ne (not_lt.mp l) (Ne.symm e)
          rw [ih (as.length + 1 + bs.length) (by omega) (a :: as) bs rfl s1 sb, cb]
          by_cases hv : b = v
          · subst hv
            rw [count_eq_zero_of_lt_sorted s1 l2]; simp
          · simp [hv]

/-- C12: for arrays sorted in non-decreasing order, `intersect(arr1, arr2)` is sorted and
every value occurs in it as often as in the array where it occurs less often (the minimum
of the two counts). -/
theorem intersect_sorted_multiset {α : Type} [LinearOrder α] (arr1 arr2 : List α)
    (h1 : arr1.Sorted (fun x y => x ≤ y)) (h2 : arr2.Sorted (fun x y => x ≤ y)) :
    (intersect arr1 arr2).Sorted (fun x y => x ≤ y) ∧
      ∀ v, (intersect arr1 arr2).count v = min (arr1.count v) (arr2.count v) := by
  rw [intersect_eq_rest]
  exact ⟨List.Pairwise.sublist (intersectRest_sublist _ arr1 arr2 rfl) h1,
    fun v => intersectRest_count v _ arr1 arr2 rfl h1 h2⟩

theorem intersect_sorted_multiset_witness :
    (intersect [1, 2, 2, 3, 4] [2, 2, 3, 3, 5]).Sorted (fun x y => x ≤ y) ∧
      (∀ v, (intersect [1, 2, 2, 3, 4] [2, 2, 3, 3, 5]).count v
        = min ([1, 2, 2, 3, 4].count v) ([2, 2, 3, 3, 5].count v)) ∧
      intersect [1, 2, 2, 3, 4] [2, 2, 3, 3, 5] = [2, 2, 3] :=
  ⟨(intersect_sorted_multiset [1, 2, 2, 3, 4] [2, 2, 3, 3, 5] (by decide) (by decide)).1,
   (intersect_sorted_multiset [1, 2, 2, 3, 4] [2, 2, 3, 3, 5] (by decide) (by decide)).2,
   by simp [intersect_eq_rest, intersectRest]⟩

/-! ## Memoization -/

section
variable {Args σ V : Type}

theorem mapGet_append_singleton (cache : List (String × V)) (key k : String) (v : V) :
    mapGet (cache ++ [(key, v)]) k
      = (mapGet cache k).orElse (fun _ => if key = k then some v else none) := by
  unfold mapGet
  rw [List.find?_append]
  cases h : cache.find? (fun p => p.1 == k) with
  | some p => simp
  | none =>
    by_cases e : key = k
    · simp [e]
    · simp [e]

theorem mapGet_mapSet_of_none (cache : List (String × V)) (key k : String) (v : V)
    (h : mapGet cache key = none) :
    mapGet (mapSet cache key v) k = if k = key then some v else mapGet cache k := by
  unfold mapSet
  rw [h]
  simp only [Option.isSome_none, Bool.false_eq_true, if_false]
  rw [mapGet_append_singleton]
  by_cases e : k = key
  · subst e; simp [h]
  · have e2 : ¬ key = k := fun x => e x.symm
    simp [e, e2]

theorem runCalls_append (stringify : Args → String) (fn : Args → σ → V × σ)
    (l1 l2 : List Args) (s : MemoState Args σ V) :
    runCalls stringify fn (l1 ++ l2) s
      = ((runCalls stringify fn l1 s).1
            ++ (runCalls stringify fn l2 (runCalls stringify fn l1 s).2).1,
          (runCalls stringify fn l2 (runCalls stringify fn l1 s).2).2) := by
  induction l1 generalizing s with
  | nil => simp [runCalls]
  | cons a l1 ih => simp [runCalls, ih]

theorem runCalls_length (stringify : Args → String) (fn : Args → σ → V × σ)
    (l : List Args) (s : MemoState Args σ V) :
    (runCalls stringify fn l s).1.length = l.length := by
  induction l generalizing s with
  | nil => simp [runCalls]
  | cons a l ih => simp [runCalls, ih]

/-- The invariant of the cache after the calls `pre` -/
theorem cache_invariant (stringify : Args → String) (fn : Args → σ → V × σ) (w : σ)
    (pre : List Args) :
    (∀ k, mapGet (runCalls stringify fn pre (memoize w)).2.cache k = none
        ↔ k ∉ pre.map stringify) ∧
      (∀ a v, (a, v) ∈ pre.zip (runCalls stringify fn pre (memoize w)).1 →
        mapGet (runCalls stringify fn pre (memoize w)).2.cache (stringify a) = some v) := by
  induction pre using List.reverseRecOn with
  | nil => simp [runCalls, memoize, mapGet]
  | append_singleton pre a ih =>
    obtain ⟨iha, ihb⟩ := ih
    rw [runCalls_append]
    simp only [runCalls]
    have hlen := runCalls_length stringify fn pre (memoize w)
    generalize runCalls stringify fn pre (memoize w) = r at iha ihb hlen ⊢
    obtain ⟨outs, s⟩ := r
    simp only at iha ihb hlen ⊢
    rw [List.zip_append hlen.symm]
    cases hc : mapGet s.cache (stringify a) with
    | some v0 =>
      simp only [memoized, hc]
      constructor
      · intro k
        rw [iha k]
        have hin : stringify a ∈ pre.map stringify := by
          by_contra hn
          rw [← iha] at hn
          rw [hn] at hc
          cases hc
        simp only [List.map_append, List.map_cons, List.map_nil, List.mem_append,
          List.mem_singleton, not_or]
        constructor
        · intro h
          exact ⟨h, fun e => h (e ▸ hin)⟩
        · intro h
          exact h.1
      · intro a1 v1 hmem
        rcases List.mem_append.mp hmem with h | h
        · exact ihb a1 v1 h
        · simp only [List.zip_cons_cons, List.zip_nil_right, List.mem_singleton,
            Prod.mk.injEq] at h
          rw [h.1, h.2]
          exact hc
    | none =>
      simp only [memoized, hc]
      have hnotin : stringify a ∉ pre.map stringify := (iha _).mp hc
      constructor
      · intro k
        rw [mapGet_mapSet_of_none _ _ _ _ hc]
        simp only [List.map_append, List.map_cons, List.map_nil, List.mem_append,
          List.mem_singleton, not_or]
        by_cases e : k = stringify a
        · simp [e]
        · simp [e, iha k]
      · intro a1 v1 hmem
        rw [mapGet_mapSet_of_none _ _ _ _ hc]
        rcases List.mem_append.mp hmem with h | h
        · have hk : stringify a1 ∈ pre.map stringify :=
            List.mem_map.mpr ⟨a1, (List.of_mem_zip h).1, rfl⟩
          have hne : stringify a1 ≠ stringify a := fun e => hnotin (e ▸ hk)
          simp only [hne, if_false]
          exact ihb a1 v1 h
        · simp only [List.zip_cons_cons, List.zip_nil_right, List.mem_singleton,
            Prod.mk.injEq] at h
          rw [h.1, h.2]
          simp

/-- The calls of `fn` after the calls `pre`: one for every key, none twice -/
theorem fnCalls_invariant (stringify : Args → String) (fn : Args → σ → V × σ) (w : σ)
    (pre : List Args) :
    ((runCalls stringify fn pre (memoize w)).2.fnCalls.map stringify).Nodup ∧
      ∀ k, k ∈ (runCalls stringify fn pre (memoize w)).2.fnCalls.map stringify
        ↔ k ∈ pre.map stringify := by
  induction pre using List.reverseRecOn with
  | nil => simp [runCalls, memoize]
  | append_singleton pre a ih =>
    obtain ⟨ihn, ihk⟩ := ih
    have hinv := (cache_invariant stringify fn w pre).1
    rw [runCalls_append]
    simp only [runCalls]
    generalize runCalls stringify fn pre (memoize w) = r at ihn ihk hinv ⊢
    obtain ⟨outs, s⟩ := r
    simp only at ihn ihk hinv ⊢
    cases hc : mapGet s.cache (stringify a) with
    | some v0 =>
      simp only [memoized, hc]
      have hin : stringify a ∈ pre.map stringify := by
        by_contra hn
        rw [← hinv] at hn
        rw [hn] at hc
        cases hc
      refine ⟨ihn, fun k => ?_⟩
      rw [ihk k]
      simp only [List.map_append, List.map_cons, List.map_nil, List.mem_append,
        List.mem_singleton]
      constructor
      · intro h; exact Or.inl h
      · rintro (h | h)
        · exact h
        · exact h ▸ hin
    | none =>
      simp only [memoized, hc]
      have hnotin : stringify a ∉ pre.map stringify := (hinv _).mp hc
      constructor
      · rw [List.map_append, List.nodup_append]
        refine ⟨ihn, by simp, ?_⟩
        intro k hk hk2
        simp only [List.map_cons, List.map_nil, List.mem_singleton] at hk2
        exact hnotin (hk2 ▸ (ihk k).mp hk)
      · intro k
        simp only [List.map_append, List.map_cons, List.map_nil, List.mem_append,
          List.mem_singleton, ihk k]

theorem mem_zip_map_self {A B : Type} (f : A → B) (l : List A) (a : A) (h : a ∈ l) :
    (a, f a) ∈ l.zip (l.map f) := by
  induction l with
  | nil => cases h
  | cons x xs ih =>
    rcases List.mem_cons.mp h with e | e
    · subst e; simp
    · simp only [List.map_cons, List.zip_cons_cons, List.mem_cons]
      exact Or.inr (ih e)

/-- With a deterministic `fn` and a serialisation that is injective on the arguments
used, every call returns the value of `fn`. -/
theorem runCalls_deterministic (stringify : Args → String) (fn : Args → σ → V × σ) (w : σ)
    (f : Args → V) (hdet : ∀ a x, (fn a x).1 = f a) (calls : List Args)
    (hinj : ∀ a ∈ calls, ∀ b ∈ calls, stringify a = stringify b → a = b) :
    (runCalls stringify fn calls (memoize w)).1 = calls.map f := by
  induction calls using List.reverseRecOn with
  | nil => simp [runCalls]
  | append_singleton pre a ih =>
    have ih1 := ih (fun x hx y hy => hinj x (List.mem_append_left _ hx) y
      (List.mem_append_left _ hy))
    obtain ⟨hia, hib⟩ := cache_invariant stringify fn w pre
    have hlen := runCalls_length stringify fn pre (memoize w)
    rw [runCalls_append]
    simp only [runCalls]
    generalize runCalls stringify fn pre (memoize w) = r at ih1 hia hib hlen ⊢
    obtain ⟨outs, s⟩ := r
    simp only at ih1 hia hib hlen ⊢
    subst ih1
    rw [List.map_append]
    congr 1
    cases hc : mapGet s.cache (stringify a) with
    | none => simp [memoized, hc, hdet]
    | some v0 =>
      simp only [memoized, hc, List.map_cons, List.map_nil, List.cons.injEq, and_true]
      have hin : stringify a ∈ pre.map stringify := by
        by_contra hn
        rw [← hia] at hn
        rw [hn] at hc
        cases hc
      obtain ⟨a0, ha0, hk⟩ := List.mem_map.mp hin
      have e : a0 = a := hinj a0 (List.mem_append_left _ ha0) a
        (List.mem_append_right _ (List.mem_singleton.mpr rfl)) hk
      subst e
      have hz : (a0, f a0) ∈ pre.zip (pre.map f) := mem_zip_map_self f pre a0 ha0
      have := hib a0 (f a0) hz
      rw [hc] at this
      exact Option.some.inj this

end

/-- C13: after any sequence `pre` of calls of the memoized function, a call whose key
(`JSON.stringify` of its arguments) has not occurred calls `fn` once, returns its result
and stores it; a call whose key is the key of an earlier call returns what that call
returned and changes nothing, so `fn` is not called.  Hence `fn` has been called once for
every key that occurred, and when `fn` is deterministic and `JSON.stringify` is injective
on the argument lists used, every call returns the value of `fn`. -/
theorem memoize_returns_stored {Args σ V : Type} (stringify : Args → String)
    (fn : Args → σ → V × σ) (w : σ) (pre : List Args) (args : Args) :
    (stringify args ∉ pre.map stringify →
        memoized stringify fn args (runCalls stringify fn pre (memoize w)).2
          = ((fn args (runCalls stringify fn pre (memoize w)).2.world).1,
              { cache := mapSet (runCalls stringify fn pre (memoize w)).2.cache
                  (stringify args)
                  (fn args (runCalls stringify fn pre (memoize w)).2.world).1,
                world := (fn args (runCalls stringify fn pre (memoize w)).2.world).2,
                fnCalls := (runCalls stringify fn pre (memoize w)).2.fnCalls ++ [args] })) ∧
      (∀ a0 v0, (a0, v0) ∈ pre.zip (runCalls stringify fn pre (memoize w)).1 →
        stringify a0 = stringify args →
        memoized stringify fn args (runCalls stringify fn pre (memoize w)).2
          = (v0, (runCalls stringify fn pre (memoize w)).2)) ∧
      ((runCalls stringify fn pre (memoize w)).2.fnCalls.map stringify).Nodup ∧
      (∀ k, k ∈ (runCalls stringify fn pre (memoize w)).2.fnCalls.map stringify
        ↔ k ∈ pre.map stringify) ∧
      (∀ f : Args → V, (∀ a x, (fn a x).1 = f a) →
        (∀ a ∈ pre, ∀ b ∈ pre, stringify a = stringify b → a = b) →
        (runCalls stringify fn pre (memoize w)).1 = pre.map f) := by
  obtain ⟨hia, hib⟩ := cache_invariant stringify fn w pre
  obtain ⟨hn, hk⟩ := fnCalls_invariant stringify fn w pre
  refine ⟨?_, ?_, hn, hk, ?_⟩
  · intro hnew
    have hc := (hia _).mpr hnew
    simp [memoized, hc]
  · intro a0 v0 hz hkey
    have hc := hib a0 v0 hz
    rw [hkey] at hc
    simp [memoized, hc]
  · intro f hdet hinj
    exact runCalls_deterministic stringify fn w f hdet pre hinj

theorem memoize_returns_stored_witness :
    (memoized sampleStringify fibonacciFn 7
        (runCalls sampleStringify fibonacciFn [5] (memoize 0)).2).1 = 13 ∧
      memoized sampleStringify fibonacciFn 5
          (runCalls sampleStringify fibonacciFn [5] (memoize 0)).2
        = (5, (runCalls sampleStringify fibonacciFn [5] (memoize 0)).2) ∧
      (runCalls sampleStringify fibonacciFn [5, 7, 5] (memoize 0)).1
        = [5, 7, 5].map fibonacci := by
  refine ⟨?_, ?_, ?_⟩
  · rw [(memoize_returns_stored sampleStringify fibonacciFn 0 [5] 7).1 (by decide)]
    rfl
  · exact (memoize_returns_stored sampleStringify fibonacciFn 0 [5] 5).2.1 5 5
      (by decide) rfl
  · exact (memoize_returns_stored sampleStringify fibonacciFn 0 [5, 7, 5] 5).2.2.2.2
      fibonacci (fun _ _ => rfl) (by decide)

/-! ## The `map` polyfill -/

section
variable {α β σ : Type}

theorem set_length_append_cons (l1 l2 : List (Option β)) (a b : Option β) :
    (l1 ++ a :: l2).set l1.length b = l1 ++ b :: l2 := by
  induction l1 with
  | nil => rfl
  | cons x xs ih => simp [ih]

theorem mapLoop_eq_visit (callback : α → Nat → List (Option α) → σ → CallbackResult α β σ)
    (hfix : ∀ x i O w, (callback x i O w).array = O) (arr : List α) :
    ∀ (n i : Nat) (done : List (Option β)) (world : σ), i + n = arr.length → done.length = i →
      mapLoop callback n i (arr.map some) (done ++ List.replicate n none) world
        = (done ++ (visitFrom callback (arr.map some) (arr.drop i) i world).1.map some,
            arr.map some,
            (visitFrom callback (arr.map some) (arr.drop i) i world).2) := by
  intro n
  induction n with
  | zero =>
    intro i done world hi hd
    have : arr.drop i = [] := List.drop_eq_nil_of_le (by omega)
    simp [mapLoop, this, visitFrom]
  | succ n ih =>
    intro i done world hi hd
    have hlt : i < arr.length := by omega
    have hdrop : arr.drop i = arr[i] :: arr.drop (i + 1) := List.drop_eq_getElem_cons hlt
    have hslot : (arr.map some)[i]? = some (some arr[i]) := by
      rw [List.getElem?_map, List.getElem?_eq_getElem hlt]; rfl
    rw [mapLoop, hslot, hdrop]
    simp only [visitFrom]
    rw [List.replicate_succ, hfix]
    have hset := set_length_append_cons done (List.replicate n none) none
      (some (callback arr[i] i (arr.map some) world).value)
    rw [hd] at hset
    rw [hset]
    have := ih (i + 1) (done ++ [some (callback arr[i] i (arr.map some) world).value])
      (callback arr[i] i (arr.map some) world).world (by omega) (by simp [hd])
    simp only [List.append_assoc, List.singleton_append] at this
    rw [this]
    simp

theorem polyfillMap_eq_visit (arr : List α)
    (callback : α → Nat → List (Option α) → σ → CallbackResult α β σ)
    (hfix : ∀ x i O w, (callback x i O w).array = O) (world : σ) :
    polyfillMap (arr.map some) (some callback) world
      = Except.ok ((visitFrom callback (arr.map some) arr 0 world).1.map some,
          arr.map some,
          (visitFrom callback (arr.map some) arr 0 world).2) := by
  have := mapLoop_eq_visit callback hfix arr arr.length 0 [] world (by simp) rfl
  simp only [List.nil_append, List.drop_zero] at this
  simp [polyfillMap, this]

theorem visitFrom_length (callback : α → Nat → List (Option α) → σ → CallbackResult α β σ)
    (O : List (Option α)) (l : List α) (i : Nat) (world : σ) :
    (visitFrom callback O l i world).1.length = l.length := by
  induction l generalizing i world with
  | nil => rfl
  | cons x xs ih => simp [visitFrom, ih]

theorem visitFrom_pure (f : α → Nat → List (Option α) → β) (O : List (Option α))
    (l : List α) (i : Nat) (world : σ) :
    (∀ k (h : k < l.length),
        (visitFrom (fun x j arr w => { value := f x j arr, array := arr, world := w })
            O l i world).1[k]?
          = some (f (l.get ⟨k, h⟩) (i + k) O)) ∧
      (visitFrom (fun x j arr w => { value := f x j arr, array := arr, world := w })
          O l i world).2 = world := by
  induction l generalizing i world with
  | nil => exact ⟨fun k h => absurd h (by simp), rfl⟩
  | cons x xs ih =>
    constructor
    · intro k h
      cases k with
      | zero => simp [visitFrom]
      | succ k =>
        simp only [visitFrom, List.getElem?_cons_succ, List.get_eq_getElem,
          List.getElem_cons_succ]
        have := (ih (i + 1) world).1 k (by simpa using h)
        rw [this]
        simp only [List.get_eq_getElem]
        congr 2
        omega
    · simp only [visitFrom]
      exact (ih (i + 1) world).2

theorem visitFrom_order (f : α → Nat → List (Option α) → β) (O : List (Option α))
    (l : List α) (i : Nat) (log : List Nat) :
    (visitFrom (fun x j arr (w : List Nat) =>
        { value := f x j arr, array := arr, world := w ++ [j] }) O l i log).2
      = log ++ List.range' i l.length := by
  induction l generalizing i log with
  | nil => simp [visitFrom]
  | cons x xs ih =>
    simp only [visitFrom, List.length_cons]
    rw [ih, List.range'_succ]
    simp

end

/-- C14, refuted as stated: with the callback that pops the last element of the array and
returns its argument, `map` on `[1, 2, 3]` returns `[1, 2, <empty slot>]` (index 2 is no
longer in `O` when the loop reaches it) and leaves the input array as `[1]`. -/
theorem polyfillMap_mutating_callback_counterexample :
    polyfillMap [some 1, some 2, some 3] (some popCallback) ()
      = Except.ok ([some 1, some 2, none], [some 1], ()) := by
  rfl

/-- C14, amended: for every array without holes and every callback that does not modify
the array, the polyfilled `map` returns an array of the same length, with no empty slot,
whose elements are the values the callback returned when the elements were visited from
index 0 upwards, each with its index and the array, and the input array is unchanged.
For a callback without effects the element at index `i` is `callback(O[i], i, O)`; a
callback that records the index it is called with records `0, 1, ..., len - 1` in this
order; doubling `[1,2,3,4,5]` gives `[2,4,6,8,10]`. -/
theorem polyfillMap_correct {α β σ : Type} (arr : List α)
    (callback : α → Nat → List (Option α) → σ → CallbackResult α β σ) (world : σ)
    (f : α → Nat → List (Option α) → β)
    (hfix : ∀ x i O w, (callback x i O w).array = O) :
    (∃ result world1, polyfillMap (arr.map some) (some callback) world
          = Except.ok (result, arr.map some, world1) ∧
        result.length = arr.length ∧
        result = (visitFrom callback (arr.map some) arr 0 world).1.map some ∧
        world1 = (visitFrom callback (arr.map some) arr 0 world).2) ∧
      (∃ result, polyfillMap (arr.map some)
          (some (fun x i O (w : σ) => { value := f x i O, array := O, world := w })) world
          = Except.ok (result, arr.map some, world) ∧
        result.length = arr.length ∧
        ∀ i (h : i < arr.length),
          result[i]? = some (some (f (arr.get ⟨i, h⟩) i (arr.map some)))) ∧
      (∃ result, polyfillMap (arr.map some)
          (some (fun x i O (log : List Nat) =>
            { value := f x i O, array := O, world := log ++ [i] })) []
          = Except.ok (result, arr.map some, List.range arr.length)) ∧
      polyfillMap [some 1, some 2, some 3, some 4, some 5]
          (some (fun (num : Int) _ O (w : Unit) =>
            { value := num * 2, array := O, world := w })) ()
        = Except.ok ([some 2, some 4, some 6, some 8, some 10],
            [some 1, some 2, some 3, some 4, some 5], ()) := by
  refine ⟨?_, ?_, ?_, by rfl⟩
  · exact ⟨_, _, polyfillMap_eq_visit arr callback hfix world,
      by simp [visitFrom_length], rfl, rfl⟩
  · obtain ⟨hget, hw⟩ := visitFrom_pure f (arr.map some) arr 0 world
    refine ⟨(visitFrom (fun x i O (w : σ) => { value := f x i O, array := O, world := w })
      (arr.map some) arr 0 world).1.map some, ?_, by simp [visitFrom_length], ?_⟩
    · rw [polyfillMap_eq_visit arr _ (fun _ _ _ _ => rfl), hw]
    · intro i h
      rw [List.getElem?_map, hget i h]
      simp
  · refine ⟨(visitFrom (fun x i O (log : List Nat) =>
      { value := f x i O, array := O, world := log ++ [i] }) (arr.map some) arr 0
      []).1.map some, ?_⟩
    rw [polyfillMap_eq_visit arr _ (fun _ _ _ _ => rfl), visitFrom_order,
      List.range_eq_range']
    simp

theorem polyfillMap_correct_witness :
    ∃ result world1, polyfillMap (([1, 2, 3] : List Nat).map some)
        (some (fun x i O (w : Nat) =>
          { value := x + i + O.length, array := O, world := w + 1 })) 0
        = Except.ok (result, ([1, 2, 3] : List Nat).map some, world1) ∧
      result.length = ([1, 2, 3] : List Nat).length ∧
      result = (visitFrom (fun x i O (w : Nat) =>
          ({ value := x + i + O.length, array := O, world := w + 1 } :
            CallbackResult Nat Nat Nat))
        (([1, 2, 3] : List Nat).map some) [1, 2, 3] 0 0).1.map some ∧
      world1 = (visitFrom (fun x i O (w : Nat) =>
          ({ value := x + i + O.length, array := O, world := w + 1 } :
            CallbackResult Nat Nat Nat))
        (([1, 2, 3] : List Nat).map some) [1, 2, 3] 0 0).2 :=
  (polyfillMap_correct [1, 2, 3]
    (fun x i O (w : Nat) => { value := x + i + O.length, array := O, world := w + 1 }) 0
    (fun x i O => x + i + O.length) (fun _ _ _ _ => rfl)).1

/-! ## Chunking -/

section
variable {α : Type}

theorem chunkLoop_acc (arr : List α) (size : Nat) (rest : List α) :
    ∀ (i : Nat) (result : List (List α)) (miniAns : List α),
      chunkLoop arr size rest i result miniAns
        = result ++ chunkLoop arr size rest i [] miniAns := by
  induction rest with
  | nil => intro i result miniAns; simp [chunkLoop]
  | cons x rest ih =>
    intro i result miniAns
    simp only [chunkLoop]
    split_ifs with h
    · rw [ih (i + 1) (result ++ [miniAns ++ [x]]), ih (i + 1) ([] ++ [miniAns ++ [x]])]
      simp
    · exact ih (i + 1) result (miniAns ++ [x])

theorem chunkLoop_spec (arr : List α) (size : Nat) (hsize : 1 ≤ size) (rest : List α) :
    ∀ (i : Nat) (miniAns : List α), i + rest.length = arr.length → miniAns.length < size →
      (rest ≠ [] → (chunkLoop arr size rest i [] miniAns).flatten = miniAns ++ rest) ∧
        PiecesOk size (chunkLoop arr size rest i [] miniAns) ∧
        (rest ≠ [] → (chunkLoop arr size rest i [] miniAns).length
          = (miniAns.length + rest.length + size - 1) / size) ∧
        (chunkLoop arr size rest i [] miniAns = [] ↔ rest = []) := by
  induction rest with
  | nil => intro i miniAns _ _; simp [chunkLoop, PiecesOk]
  | cons x rest ih =>
    intro i miniAns hi hm
    simp only [List.length_cons] at hi
    simp only [chunkLoop, List.length_append, List.length_singleton, List.nil_append]
    have hlast : i = arr.length - 1 ↔ rest = [] := by
      constructor
      · intro h
        have : rest.length = 0 := by omega
        exact List.length_eq_zero.mp this
      · intro h; subst h; simp at hi; omega
    by_cases hcut : miniAns.length + 1 = size ∨ i = arr.length - 1
    · rw [if_pos hcut, chunkLoop_acc]
      obtain ⟨j1, j2, j3, j4⟩ := ih (i + 1) [] (by omega) (by simpa using hsize)
      refine ⟨?_, ?_, ?_, ?_⟩
      · intro _
        simp only [List.singleton_append, List.flatten_cons]
        by_cases hr : rest = []
        · rw [j4.mpr hr, hr]; simp
        · rw [j1 hr]; simp
      · simp only [List.singleton_append]
        cases hrest : chunkLoop arr size rest (i + 1) [] [] with
        | nil =>
          simp only [PiecesOk, List.length_append, List.length_singleton]
          omega
        | cons q ps =>
          rw [hrest] at j2
          simp only [PiecesOk, List.length_append, List.length_singleton]
          refine ⟨?_, j2⟩
          rcases hcut with h | h
          · exact h
          · have := j4.mpr (hlast.mp h)
            rw [hrest] at this
            cases this
      · intro _
        simp only [List.singleton_append, List.length_cons]
        by_cases hr : rest = []
        · rw [j4.mpr hr, hr]
          simp only [List.length_nil, Nat.zero_add, Nat.add_zero]
          have : miniAns.length + 1 + size - 1 = miniAns.length + size := by omega
          rw [this, Nat.add_div_right _ (by omega), Nat.div_eq_of_lt hm]
        · rw [j3 hr]
          have hs : miniAns.length + 1 = size := by
            rcases hcut with h | h
            · exact h
            · exact absurd (hlast.mp h) hr
          have : miniAns.length + (rest.length + 1) + size - 1
              = (rest.length + size - 1) + size := by omega
          rw [this, Nat.add_div_right _ (by omega)]
          simp
      · simp
    · rw [if_neg hcut]
      have hr : rest ≠ [] := fun h => hcut (Or.inr (hlast.mpr h))
      have hlen : miniAns.length + 1 < size := by
        have : miniAns.length + 1 ≠ size := fun h => hcut (Or.inl h)
        omega
      obtain ⟨j1, j2, j3, j4⟩ := ih (i + 1) (miniAns ++ [x]) (by omega) (by simpa using hlen)
      refine ⟨?_, j2, ?_, ?_⟩
      · intro _; rw [j1 hr]; simp
      · intro _
        rw [j3 hr]
        simp only [List.length_append, List.length_cons, List.length_nil]
        have : miniAns.length + (0 + 1) + rest.length + size - 1
            = miniAns.length + (rest.length + 1) + size - 1 := by omega
        rw [this]
      · rw [j4]; simp [hr]

end

theorem piecesOk_get {α : Type} (size : Nat) :
    ∀ (pieces : List (List α)), PiecesOk size pieces →
      ∀ k (h : k < pieces.length),
        (k + 1 < pieces.length → (pieces.get ⟨k, h⟩).length = size) ∧
          (k + 1 = pieces.length →
            1 ≤ (pieces.get ⟨k, h⟩).length ∧ (pieces.get ⟨k, h⟩).length ≤ size) := by
  intro pieces
  induction pieces with
  | nil => intro _ k h; cases h
  | cons p ps ih =>
    intro hok k h
    cases ps with
    | nil =>
      have hk : k = 0 := by simpa using h
      subst hk
      simp only [PiecesOk] at hok
      simp [hok]
    | cons q qs =>
      simp only [PiecesOk] at hok
      cases k with
      | zero => simp [hok.1]
      | succ k =>
        have := ih hok.2 k (by simpa using h)
        simpa using this

/-- C18: for `size >= 1`, the pieces of `chunk(arr, size)` put one after the other give
`arr`; every piece except the last has exactly `size` elements and the last has between
1 and `size`; the number of pieces is `arr.length / size` rounded up, and an empty array
gives no piece. -/
theorem chunk_pieces {α : Type} (arr : List α) (size : Nat) (hsize : 1 ≤ size) :
    (chunk arr size).flatten = arr ∧
      (∀ k (h : k < (chunk arr size).length),
        (k + 1 < (chunk arr size).length → ((chunk arr size).get ⟨k, h⟩).length = size) ∧
          (k + 1 = (chunk arr size).length →
            1 ≤ ((chunk arr size).get ⟨k, h⟩).length ∧
              ((chunk arr size).get ⟨k, h⟩).length ≤ size)) ∧
      (chunk arr size).length = (arr.length + size - 1) / size ∧
      chunk ([] : List α) size = [] := by
  obtain ⟨j1, j2, j3, j4⟩ := chunkLoop_spec arr size hsize arr 0 [] (by simp) (by simpa using hsize)
  unfold chunk
  refine ⟨?_, piecesOk_get size _ j2, ?_, rfl⟩
  · by_cases hr : arr = []
    · rw [j4.mpr hr, hr]; rfl
    · simpa using j1 hr
  · by_cases hr : arr = []
    · rw [j4.mpr hr, hr]
      simp only [List.length_nil, Nat.zero_add]
      exact (Nat.div_eq_of_lt (by omega)).symm
    · simpa using j3 hr

theorem chunk_pieces_witness :
    (chunk [1, 2, 3, 4, 5] 2).flatten = [1, 2, 3, 4, 5] ∧
      (chunk [1, 2, 3, 4, 5] 2).length = (5 + 2 - 1) / 2 ∧
      chunk [1, 2, 3, 4, 5] 2 = [[1, 2], [3, 4], [5]] :=
  ⟨(chunk_pieces [1, 2, 3, 4, 5] 2 (by decide)).1,
   (chunk_pieces [1, 2, 3, 4, 5] 2 (by decide)).2.2.1, by decide⟩

end InterviewPrep

namespace ViteReact

/-! ## The todo list -/

/-- Toggling one todo: the id and the text stay, and `completed` is negated exactly when
the id is the one asked for. -/
theorem markTodo_get (todos : List Todo) (todoId : String) (i : Nat) (h : i < todos.length) :
    (markTodo todos todoId)[i]? = some
      { id := (todos.get ⟨i, h⟩).id, text := (todos.get ⟨i, h⟩).text,
        completed := if (todos.get ⟨i, h⟩).id = todoId then !(todos.get ⟨i, h⟩).completed
          else (todos.get ⟨i, h⟩).completed } := by
  unfold markTodo
  rw [List.getElem?_map, List.getElem?_eq_getElem h]
  simp only [List.get_eq_getElem, Option.map_some', Option.some.injEq]
  by_cases e : todos[i].id = todoId
  · simp [e]
  · simp [e]

/-- C17: `markTodo(id)` gives a list of the same length and order in which every todo
keeps its id and text, the todos whose id is `id` have `completed` negated and the others
are unchanged; doing it twice gives the original list back. -/
theorem markTodo_toggles (todos : List Todo) (todoId : String) :
    (markTodo todos todoId).length = todos.length ∧
      (∀ i (h : i < todos.length), ∃ t, (markTodo todos todoId)[i]? = some t ∧
        t.id = (todos.get ⟨i, h⟩).id ∧ t.text = (todos.get ⟨i, h⟩).text ∧
        ((todos.get ⟨i, h⟩).id = todoId → t.completed = !(todos.get ⟨i, h⟩).completed) ∧
        ((todos.get ⟨i, h⟩).id ≠ todoId → t = todos.get ⟨i, h⟩)) ∧
      markTodo (markTodo todos todoId) todoId = todos := by
  refine ⟨by simp [markTodo], ?_, ?_⟩
  · intro i h
    refine ⟨_, markTodo_get todos todoId i h, rfl, rfl, ?_, ?_⟩
    · intro e; rw [if_pos e]
    · intro e; rw [if_neg e]
  · unfold markTodo
    rw [List.map_map]
    conv_rhs => rw [← List.map_id todos]
    apply List.map_congr_left
    intro t _
    cases t with
    | mk tid ttext tdone =>
      by_cases e : tid = todoId
      · simp [e]
      · simp [e]

theorem markTodo_toggles_witness :
    markTodo
        [{ id := "a", text := "Learn React", completed := false },
         { id := "b", text := "Learn Node.js", completed := true }] "a"
      = [{ id := "a", text := "Learn React", completed := true },
         { id := "b", text := "Learn Node.js", completed := true }] ∧
    markTodo (markTodo
        [{ id := "a", text := "Learn React", completed := false },
         { id := "b", text := "Learn Node.js", completed := true }] "a") "a"
      = [{ id := "a", text := "Learn React", completed := false },
         { id := "b", text := "Learn Node.js", completed := true }] :=
  ⟨by decide,
   (markTodo_toggles
      [{ id := "a", text := "Learn React", completed := false },
       { id := "b", text := "Learn Node.js", completed := true }] "a").2.2⟩

end ViteReact
